import Mathlib

/-!
Verification development for the "QR Master Pro" repository.

The repository is a TypeScript/React application.  The parts with real
contracts are:

* the per-kind payload encoder (the `useEffect` switch in `QrGenerator`),
* the folio codec: `utf8ToBase64` / `JSON.stringify` on the generator side
  and `base64ToUtf8` / `JSON.parse` in `FolioPage`,
* the standard-render validation effect (debounced decode-and-compare),
* the batch-export pipeline (`handleBatchExport`).

This file gives a shallow embedding of those parts.  Browser built-ins used
by the code (`btoa`/`atob`, `encodeURIComponent`/`escape` composition,
`JSON.stringify`/`JSON.parse`) are modelled by executable Lean functions
that follow the corresponding platform specifications (forgiving-base64,
UTF-8, RFC 8259 JSON).  JavaScript strings are modelled as Lean `String`s
(sequences of Unicode scalar values); machine bytes are `Nat`s below 256.
-/

namespace QrMaster

/-! ## UTF-8 encoding and decoding

`utf8ToBase64` in the source is `btoa(unescape(encodeURIComponent(str)))`,
i.e. base64 applied to the UTF-8 bytes of the string; `base64ToUtf8` is
`decodeURIComponent(escape(window.atob(str)))`, i.e. strict UTF-8 decoding
of the bytes produced by `atob`. -/

/-- UTF-8 encoding of a single Unicode scalar value, as a list of bytes. -/
def utf8EncodeChar (c : Char) : List Nat :=
  let n := c.toNat
  if n < 0x80 then [n]
  else if n < 0x800 then [0xC0 + n / 64, 0x80 + n % 64]
  else if n < 0x10000 then
    [0xE0 + n / 4096, 0x80 + (n / 64) % 64, 0x80 + n % 64]
  else
    [0xF0 + n / 262144, 0x80 + (n / 4096) % 64, 0x80 + (n / 64) % 64, 0x80 + n % 64]

/-- UTF-8 encoding of a string, as a list of bytes. -/
def utf8Encode (s : String) : List Nat :=
  s.data.flatMap utf8EncodeChar

/-- Is `b` a UTF-8 continuation byte? -/
def isCont (b : Nat) : Bool := 0x80 ≤ b && b < 0xC0

/-- Strict UTF-8 decoding of a byte list (as performed by
`decodeURIComponent(escape(bytes))`), fueled by the number of bytes:
rejects truncated sequences, stray continuation bytes, overlong forms,
surrogates and values above `U+10FFFF`. -/
def utf8DecodeF : Nat → List Nat → Option (List Char)
  | 0, [] => some []
  | _ + 1, [] => some []
  | 0, _ :: _ => none
  | fuel + 1, b :: r =>
    if b < 0x80 then (utf8DecodeF fuel r).map (Char.ofNat b :: ·)
    else if b < 0xC0 then none
    else if b < 0xE0 then
      (r.head?).bind fun b2 =>
        if isCont b2 then
          if 0x80 ≤ (b - 0xC0) * 64 + (b2 - 0x80) then
            (utf8DecodeF fuel (r.drop 1)).map (Char.ofNat ((b - 0xC0) * 64 + (b2 - 0x80)) :: ·)
          else none
        else none
    else if b < 0xF0 then
      (r.head?).bind fun b2 => ((r.drop 1).head?).bind fun b3 =>
        if isCont b2 && isCont b3 then
          if 0x800 ≤ (b - 0xE0) * 4096 + (b2 - 0x80) * 64 + (b3 - 0x80) ∧
              ((b - 0xE0) * 4096 + (b2 - 0x80) * 64 + (b3 - 0x80) < 0xD800 ∨
                0xE000 ≤ (b - 0xE0) * 4096 + (b2 - 0x80) * 64 + (b3 - 0x80)) then
            (utf8DecodeF fuel (r.drop 2)).map
              (Char.ofNat ((b - 0xE0) * 4096 + (b2 - 0x80) * 64 + (b3 - 0x80)) :: ·)
          else none
        else none
    else if b < 0xF8 then
      (r.head?).bind fun b2 => ((r.drop 1).head?).bind fun b3 => ((r.drop 2).head?).bind fun b4 =>
        if isCont b2 && isCont b3 && isCont b4 then
          if 0x10000 ≤ (b - 0xF0) * 262144 + (b2 - 0x80) * 4096 + (b3 - 0x80) * 64 + (b4 - 0x80) ∧
              (b - 0xF0) * 262144 + (b2 - 0x80) * 4096 + (b3 - 0x80) * 64 + (b4 - 0x80) ≤ 0x10FFFF then
            (utf8DecodeF fuel (r.drop 3)).map
              (Char.ofNat ((b - 0xF0) * 262144 + (b2 - 0x80) * 4096 + (b3 - 0x80) * 64 + (b4 - 0x80)) :: ·)
          else none
        else none
    else none

/-- Strict UTF-8 decoding of a byte list; the byte count bounds the number
of decoded characters, so it is sufficient fuel. -/
def utf8Decode (l : List Nat) : Option (List Char) :=
  utf8DecodeF l.length l

/-! ## Base64 (`btoa` / `atob`) -/

/-- The base64 alphabet, indexed by sextet value. -/
def b64Alphabet : List Char :=
  "ABCDEFGHIJKLMNOPQRSTUVWXYZabcdefghijklmnopqrstuvwxyz0123456789+/".data

/-- Character for a sextet value (`n < 64`). -/
def sextetChar (n : Nat) : Char := b64Alphabet.getD n 'A'

/-- Sextet value of a base64 character, if any. -/
def charSextet (c : Char) : Option Nat := b64Alphabet.indexOf? c

/-- `btoa` on a byte list: standard base64 with `=` padding. -/
def b64Encode : List Nat → List Char
  | [] => []
  | [a] => [sextetChar (a / 4), sextetChar (a % 4 * 16), '=', '=']
  | [a, b] => [sextetChar (a / 4), sextetChar (a % 4 * 16 + b / 16), sextetChar (b % 16 * 4), '=']
  | a :: b :: c :: r =>
    sextetChar (a / 4) :: sextetChar (a % 4 * 16 + b / 16) ::
      sextetChar (b % 16 * 4 + c / 64) :: sextetChar (c % 64) :: b64Encode r

/-- ASCII whitespace stripped by forgiving-base64 before decoding. -/
def isB64Ws (c : Char) : Bool :=
  c.toNat = 9 || c.toNat = 10 || c.toNat = 12 || c.toNat = 13 || c.toNat = 32

/-- Decode groups of four base64 characters to bytes, handling trailing
`=` padding and the unpadded remainders (2 or 3 characters) that
forgiving-base64 accepts; `=` anywhere else fails the sextet lookup. -/
def b64DecodeChunks : List Char → Option (List Nat)
  | [] => some []
  | [c0, c1] => do
    let s0 ← charSextet c0
    let s1 ← charSextet c1
    pure [s0 * 4 + s1 / 16]
  | [c0, c1, c2] => do
    let s0 ← charSextet c0
    let s1 ← charSextet c1
    let s2 ← charSextet c2
    pure [s0 * 4 + s1 / 16, s1 % 16 * 16 + s2 / 4]
  | c0 :: c1 :: c2 :: c3 :: r =>
    if r = [] ∧ c3 = '=' then
      if c2 = '=' then do
        let s0 ← charSextet c0
        let s1 ← charSextet c1
        pure [s0 * 4 + s1 / 16]
      else do
        let s0 ← charSextet c0
        let s1 ← charSextet c1
        let s2 ← charSextet c2
        pure [s0 * 4 + s1 / 16, s1 % 16 * 16 + s2 / 4]
    else do
      let s0 ← charSextet c0
      let s1 ← charSextet c1
      let s2 ← charSextet c2
      let s3 ← charSextet c3
      let rest ← b64DecodeChunks r
      pure ((s0 * 4 + s1 / 16) :: (s1 % 16 * 16 + s2 / 4) :: (s2 % 4 * 64 + s3) :: rest)
  | [_] => none

/-- `window.atob`: forgiving-base64 decoding — strip ASCII whitespace, then
decode; returns `none` where the browser throws `InvalidCharacterError`. -/
def atobModel (s : String) : Option (List Nat) :=
  b64DecodeChunks (s.data.filter (fun c => !isB64Ws c))

/-! ## JSON values (`JSON.parse` / `JSON.stringify`)

`Json` models the values `JSON.parse` can produce.  Number literals are
kept as their lexemes; no claim in this development depends on numeric
values.  Objects are ordered key/value lists (JavaScript objects preserve
insertion order; property lookup takes the last occurrence of a key, as
`JSON.parse` does for duplicate keys). -/

inductive Json where
  | null : Json
  | bool (b : Bool) : Json
  | num (lexeme : String) : Json
  | str (s : String) : Json
  | arr (xs : List Json) : Json
  | obj (ms : List (String × Json)) : Json
deriving Repr

/-- `Object.keys(v).length` for a parsed JSON value: JavaScript returns the
element count for arrays, one key per UTF-16 unit for strings, the property
count for objects, and an empty list for primitives (for `null` the
`Object.keys` call throws, which the surrounding `try` turns into the same
rejection as an empty key list). -/
def keysLen : Json → Nat
  | .null => 0
  | .bool _ => 0
  | .num _ => 0
  | .str s => s.utf16Length
  | .arr xs => xs.length
  | .obj ms => ms.length

/-- JavaScript property lookup on a parsed JSON value (`data.name` etc.):
defined (only) for object properties; duplicate keys resolve to the last
occurrence. -/
def jGet (v : Json) (k : String) : Option Json :=
  match v with
  | .obj ms => (ms.reverse.find? (fun m => m.1 = k)).map (·.2)
  | _ => none

/-! ### The JSON parser (`JSON.parse`)

A fuel-indexed recursive-descent parser over the character list of the
input.  Fuel decreases on every recursive call; the top level supplies
`length + 1` fuel, which suffices for every input since each recursive
call consumes at least one character first. -/

/-- Skip JSON whitespace (space, tab, line feed, carriage return). -/
def skipWs : List Char → List Char
  | c :: r =>
    if c = ' ' ∨ c = '\t' ∨ c = '\n' ∨ c = '\r' then skipWs r else c :: r
  | [] => []

/-- Value of a hexadecimal digit character. -/
def hexVal (c : Char) : Option Nat :=
  let n := c.toNat
  if 48 ≤ n ∧ n ≤ 57 then some (n - 48)
  else if 65 ≤ n ∧ n ≤ 70 then some (n - 55)
  else if 97 ≤ n ∧ n ≤ 102 then some (n - 87)
  else none

/-- Code unit of a single-character JSON escape. -/
def escUnit : Char → Option Nat
  | '"' => some 34
  | '\\' => some 92
  | '/' => some 47
  | 'b' => some 8
  | 'f' => some 12
  | 'n' => some 10
  | 'r' => some 13
  | 't' => some 9
  | _ => none

/-- Parse the body of a JSON string literal (after the opening quote) into
UTF-16 code-unit values — a JavaScript string is a sequence of such units:
each `\uXXXX` escape contributes its 16-bit value, every other character
contributes its scalar value.  Returns the units and the input after the
closing quote. -/
def parseStrUnits : List Char → Option (List Nat × List Char)
  | [] => none
  | '"' :: r => some ([], r)
  | '\\' :: 'u' :: h1 :: h2 :: h3 :: h4 :: r => do
    let a ← hexVal h1
    let b ← hexVal h2
    let c ← hexVal h3
    let d ← hexVal h4
    let (us, rest) ← parseStrUnits r
    pure ((a * 4096 + b * 256 + c * 16 + d) :: us, rest)
  | '\\' :: e :: r =>
    (escUnit e).bind fun u => do
      let (us, rest) ← parseStrUnits r
      pure (u :: us, rest)
  | c :: r =>
    if c.toNat < 0x20 then none
    else do
      let (us, rest) ← parseStrUnits r
      pure (c.toNat :: us, rest)

/-- Is `u` a high (leading) surrogate code unit? -/
def isHighSurrogate (u : Nat) : Bool := 0xD800 ≤ u && u < 0xDC00

/-- Is `u` a low (trailing) surrogate code unit? -/
def isLowSurrogate (u : Nat) : Bool := 0xDC00 ≤ u && u < 0xE000

/-- Combine a code-unit sequence into characters, as reading a JavaScript
string as Unicode does: a high followed by a low surrogate forms one
supplementary character; a lone surrogate — representable in a JavaScript
string but not as a Unicode scalar value — becomes `U+FFFD` (no claim
depends on lone surrogates).  Fueled by the list length. -/
def unitsToChars : Nat → List Nat → List Char
  | 0, _ => []
  | _ + 1, [] => []
  | n + 1, u :: r =>
    if isHighSurrogate u then
      match r.head? with
      | some u2 =>
        if isLowSurrogate u2 then
          Char.ofNat (0x10000 + (u - 0xD800) * 1024 + (u2 - 0xDC00)) :: unitsToChars n r.tail
        else Char.ofNat 0xFFFD :: unitsToChars n r
      | none => [Char.ofNat 0xFFFD]
    else if isLowSurrogate u then Char.ofNat 0xFFFD :: unitsToChars n r
    else Char.ofNat u :: unitsToChars n r

/-- Decoded characters of a JSON string-literal body. -/
def parseStrChars (cs : List Char) : Option (List Char × List Char) :=
  (parseStrUnits cs).map fun p => (unitsToChars p.1.length p.1, p.2)

/-- Is `c` a decimal digit? -/
def isDigitChar (c : Char) : Bool := 48 ≤ c.toNat && c.toNat ≤ 57

/-- Parse the optional fraction part of a JSON number; returns its lexeme
(possibly empty) and the rest. -/
def parseFrac : List Char → Option (List Char × List Char)
  | '.' :: r =>
    (match r.takeWhile isDigitChar with
     | [] => none
     | ds => some ('.' :: ds, r.dropWhile isDigitChar))
  | cs => some ([], cs)

/-- Parse the optional exponent part of a JSON number; returns its lexeme
(possibly empty) and the rest. -/
def parseExp : List Char → Option (List Char × List Char)
  | e :: r =>
    if e = 'e' ∨ e = 'E' then
      match r with
      | s :: r2 =>
        if s = '+' ∨ s = '-' then
          (match r2.takeWhile isDigitChar with
           | [] => none
           | ds => some (e :: s :: ds, r2.dropWhile isDigitChar))
        else
          (match r.takeWhile isDigitChar with
           | [] => none
           | ds => some (e :: ds, r.dropWhile isDigitChar))
      | [] => none
    else some ([], e :: r)
  | [] => some ([], [])

/-- Parse the digits and optional fraction/exponent of a JSON number,
given the characters after the optional minus sign.  Returns the number's
lexeme (without sign) and the rest of the input. -/
def parseNumTail (cs : List Char) : Option (List Char × List Char) :=
  match cs.takeWhile isDigitChar with
  | [] => none
  | d :: ds =>
    -- a leading zero may not be followed by further integer digits
    if d = '0' ∧ ds ≠ [] then none
    else do
      let (frac, afterFrac) ← parseFrac (cs.dropWhile isDigitChar)
      let (ex, afterExp) ← parseExp afterFrac
      pure ((d :: ds) ++ frac ++ ex, afterExp)

/-- Parse one or more `"key": value` members followed by `}`, using `pv`
to parse each member's value; the input must already start at the first
key's opening quote.  The fuel bounds the number of members. -/
def parseMembersF (pv : List Char → Option (Json × List Char)) :
    Nat → List Char → Option (List (String × Json) × List Char)
  | 0, _ => none
  | n + 1, cs =>
    match cs with
    | '"' :: r =>
      (parseStrChars r).bind fun kp =>
        match skipWs kp.2 with
        | ':' :: r3 =>
          (pv r3).bind fun vp =>
            (match skipWs vp.2 with
             | ',' :: r5 =>
               (parseMembersF pv n (skipWs r5)).map
                 (fun mp => ((String.mk kp.1, vp.1) :: mp.1, mp.2))
             | '}' :: r5 => some ([(String.mk kp.1, vp.1)], r5)
             | _ => none)
        | _ => none
    | _ => none

/-- Parse one or more array elements followed by `]`, using `pv` for each
element.  The fuel bounds the number of elements. -/
def parseElemsF (pv : List Char → Option (Json × List Char)) :
    Nat → List Char → Option (List Json × List Char)
  | 0, _ => none
  | n + 1, cs =>
    (pv cs).bind fun vp =>
      match skipWs vp.2 with
      | ',' :: r2 =>
        (parseElemsF pv n (skipWs r2)).map (fun ep => (vp.1 :: ep.1, ep.2))
      | ']' :: r2 => some ([vp.1], r2)
      | _ => none

/-- Fuel-indexed JSON value parser: returns the value and the unconsumed
input. -/
def parseValue : Nat → List Char → Option (Json × List Char)
  | 0, _ => none
  | n + 1, cs =>
    match skipWs cs with
    | '{' :: r =>
      (match skipWs r with
       | '}' :: r2 => some (Json.obj [], r2)
       | r1 => (parseMembersF (parseValue n) n r1).map (fun p => (Json.obj p.1, p.2)))
    | '[' :: r =>
      (match skipWs r with
       | ']' :: r2 => some (Json.arr [], r2)
       | r1 => (parseElemsF (parseValue n) n r1).map (fun p => (Json.arr p.1, p.2)))
    | '"' :: r => (parseStrChars r).map (fun p => (Json.str (String.mk p.1), p.2))
    | 't' :: 'r' :: 'u' :: 'e' :: r => some (Json.bool true, r)
    | 'f' :: 'a' :: 'l' :: 's' :: 'e' :: r => some (Json.bool false, r)
    | 'n' :: 'u' :: 'l' :: 'l' :: r => some (Json.null, r)
    | '-' :: r =>
      (parseNumTail r).map (fun p => (Json.num (String.mk ('-' :: p.1)), p.2))
    | c :: r =>
      if isDigitChar c then
        (parseNumTail (c :: r)).map (fun p => (Json.num (String.mk p.1), p.2))
      else none
    | [] => none

/-- `JSON.parse`: parse a complete JSON document; `none` models a thrown
`SyntaxError`. -/
def jsonParse (s : String) : Option Json :=
  match parseValue (s.data.length + 1) s.data with
  | some (v, rest) => if skipWs rest = [] then some v else none
  | none => none

/-! ## The folio codec

Generator side (`QrGenerator`, `LinkFolio` case):

```js
const validLinks = (links || []).filter((link) => link && link.title && link.url);
const folioData = { profileImageUrl, name, title, links: validLinks };
const jsonString = JSON.stringify(folioData);
const base64String = utf8ToBase64(jsonString);
```

Viewer side (`FolioPage` `useMemo`): `base64ToUtf8`, `JSON.parse`, and the
empty-object guard. -/

/-- One link of a folio profile. -/
structure FolioLink where
  title : String
  url : String
deriving Repr, DecidableEq

/-- A folio profile as assembled by the generator: the three scalar fields
are optional (`undefined` in JavaScript when absent). -/
structure FolioProfile where
  profileImageUrl : Option String := none
  name : Option String := none
  title : Option String := none
  links : List FolioLink := []
deriving Repr, DecidableEq

/-- Does a link pass the generator's filter `link && link.title && link.url`
(JavaScript truthiness: both strings non-empty)? -/
def linkValid (l : FolioLink) : Bool := l.title ≠ "" && l.url ≠ ""

/-- Lower-case hexadecimal digit, as `JSON.stringify` emits in `\u` escapes. -/
def lowerHexDigit (n : Nat) : Char := "0123456789abcdef".data.getD n '0'

/-- `JSON.stringify` escaping of one character inside a string literal. -/
def escapeChar (c : Char) : List Char :=
  if c = '"' then ['\\', '"']
  else if c = '\\' then ['\\', '\\']
  else if c = Char.ofNat 8 then ['\\', 'b']
  else if c = '\t' then ['\\', 't']
  else if c = '\n' then ['\\', 'n']
  else if c = Char.ofNat 12 then ['\\', 'f']
  else if c = '\r' then ['\\', 'r']
  else if c.toNat < 0x20 then
    ['\\', 'u', '0', '0', lowerHexDigit (c.toNat / 16), lowerHexDigit (c.toNat % 16)]
  else [c]

/-- `JSON.stringify` of a string value: quoted and escaped, as characters. -/
def qchars (s : String) : List Char :=
  '"' :: (s.data.flatMap escapeChar) ++ ['"']

/-- Characters of `JSON.stringify({title: ..., url: ...})` for one link. -/
def linkChars (l : FolioLink) : List Char :=
  '{' :: "\"title\":".data ++ qchars l.title ++ [','] ++ "\"url\":".data ++ qchars l.url ++ ['}']

/-- Characters of the comma-separated link objects inside the array. -/
def linksChars : List FolioLink → List Char
  | [] => []
  | l :: ls => linkChars l ++ (if ls.isEmpty then [] else ',' :: linksChars ls)

/-- Characters of one optional scalar member followed by a comma, or
nothing when the field is `undefined` (`JSON.stringify` omits it). -/
def optMemberChars (key : String) (v : Option String) : List Char :=
  match v with
  | some s => '"' :: key.data ++ ['"', ':'] ++ qchars s ++ [',']
  | none => []

/-- `JSON.stringify({profileImageUrl, name, title, links})`, as characters:
insertion order of the generator's object literal, absent optional fields
omitted, no whitespace. -/
def folioChars (p : FolioProfile) : List Char :=
  '{' :: optMemberChars "profileImageUrl" p.profileImageUrl
    ++ optMemberChars "name" p.name
    ++ optMemberChars "title" p.title
    ++ "\"links\":[".data ++ linksChars p.links ++ [']', '}']

/-- The `Json` value `JSON.parse` recovers from one serialized link. -/
def linkJson (l : FolioLink) : Json :=
  Json.obj [("title", Json.str l.title), ("url", Json.str l.url)]

/-- The member for an optional scalar field, if present. -/
def optMemberJson (key : String) (v : Option String) : List (String × Json) :=
  match v with
  | some s => [(key, Json.str s)]
  | none => []

/-- The `Json` value `JSON.parse` recovers from the serialized profile. -/
def folioJson (p : FolioProfile) : Json :=
  Json.obj (optMemberJson "profileImageUrl" p.profileImageUrl
    ++ optMemberJson "name" p.name
    ++ optMemberJson "title" p.title
    ++ [("links", Json.arr (p.links.map linkJson))])

/-- `utf8ToBase64` (source `QrGenerator`): `btoa(unescape(encodeURIComponent(str)))`,
i.e. base64 over the UTF-8 bytes.  Total: its `try`/`catch` can only throw
for lone surrogates, which a Lean `String` cannot contain. -/
def utf8ToBase64 (s : String) : String :=
  String.mk (b64Encode (utf8Encode s))

/-- `base64ToUtf8` (source `FolioPage`/`App`): `decodeURIComponent(escape(window.atob(str)))`;
on any failure the `catch` returns the string `"{}"`. -/
def base64ToUtf8 (s : String) : String :=
  match (atobModel s).bind utf8Decode with
  | some cs => String.mk cs
  | none => "{}"

/-- `FolioCodec.encode`: filter the links, stringify, base64-encode. -/
def folioEncode (p : FolioProfile) : String :=
  utf8ToBase64 (String.mk (folioChars { p with links := p.links.filter linkValid }))

/-- `FolioCodec.decode` (the `useMemo` in `FolioPage`): `none` models both
the `null` result and a caught exception, i.e. the "Invalid Link Folio"
outcome. -/
def folioDecodeData (encodedData : String) : Option Json :=
  if encodedData = "" then none
  else
    match jsonParse (base64ToUtf8 encodedData) with
    | none => none
    | some v => if keysLen v = 0 ∧ encodedData.length > 0 then none else some v

/-- Reading a scalar field off the decoded data, as the viewer's
destructuring does; `none` when the property is absent (or not a string —
the viewer would then render non-string data, which never arises from
`folioEncode` output). -/
def folioFieldStr (v : Json) (key : String) : Option String :=
  match jGet v key with
  | some (Json.str s) => some s
  | _ => none

/-- Reading one link off an element of the decoded `links` array. -/
def linkOfJson : Json → Option FolioLink
  | x =>
    match jGet x "title", jGet x "url" with
    | some (Json.str t), some (Json.str u) => some ⟨t, u⟩
    | _, _ => none

/-- Reading the `links` array off the decoded data. -/
def folioLinksOf (v : Json) : List FolioLink :=
  match jGet v "links" with
  | some (Json.arr xs) => xs.filterMap linkOfJson
  | _ => []

/-- The profile the viewer reconstructs from an inbound token: decode,
then read each field the way `FolioPage` does. -/
def folioDecodeProfile (encodedData : String) : Option FolioProfile :=
  (folioDecodeData encodedData).map fun v =>
    { profileImageUrl := folioFieldStr v "profileImageUrl"
      name := folioFieldStr v "name"
      title := folioFieldStr v "title"
      links := folioLinksOf v }

/-! ## The payload encoder

The `useEffect` switch in `QrGenerator` mapping `(qrType, qrData)` to the
payload string `value`.  `qrData` is a JavaScript `Record<string, any>`;
each field read by the encoder is modelled as an `Option String`
(`none` = `undefined`), plus the `links` array for the LinkFolio kind. -/

/-- The content kinds (`QrCodeType` in `constants.ts`). -/
inductive QrCodeType where
  | url | text | wifi | email | sms | geo | vcard | event | whatsapp | linkFolio
deriving Repr, DecidableEq

/-- The form-state fields the encoder reads (`qrData`). -/
structure QrData where
  url : Option String := none
  text : Option String := none
  ssid : Option String := none
  password : Option String := none
  encryption : Option String := none
  email : Option String := none
  subject : Option String := none
  body : Option String := none
  phone : Option String := none
  message : Option String := none
  latitude : Option String := none
  longitude : Option String := none
  firstName : Option String := none
  lastName : Option String := none
  organization : Option String := none
  title : Option String := none
  website : Option String := none
  summary : Option String := none
  location : Option String := none
  dtstart : Option String := none
  dtend : Option String := none
  profileImageUrl : Option String := none
  name : Option String := none
  links : List FolioLink := []
  description : Option String := none
deriving Repr, DecidableEq

/-- JavaScript `x || dflt` for a possibly-undefined string: the default is
taken when the value is `undefined` or the empty string. -/
def jsOr (v : Option String) (dflt : String) : String :=
  match v with
  | some s => if s = "" then dflt else s
  | none => dflt

/-- JavaScript truthiness of a possibly-undefined string. -/
def jsTruthy (v : Option String) : Bool :=
  match v with
  | some s => s ≠ ""
  | none => false

/-- Unreserved characters of `encodeURIComponent`:
alphanumerics and `- _ . ! ~ * ' ( )`. -/
def isUriUnreserved (c : Char) : Bool :=
  let n := c.toNat
  (48 ≤ n && n ≤ 57) || (65 ≤ n && n ≤ 90) || (97 ≤ n && n ≤ 122) ||
    n = 45 || n = 95 || n = 46 || n = 33 || n = 126 || n = 42 || n = 39 || n = 40 || n = 41

/-- Uppercase hexadecimal digit. -/
def hexDigitUpper (n : Nat) : Char := "0123456789ABCDEF".data.getD n '0'

/-- `encodeURIComponent`: percent-encode the UTF-8 bytes of every
non-unreserved character. -/
def encodeURIComponent (s : String) : String :=
  String.mk (s.data.flatMap fun c =>
    if isUriUnreserved c then [c]
    else (utf8EncodeChar c).flatMap fun b => ['%', hexDigitUpper (b / 16), hexDigitUpper (b % 16)])

/-- `formatDateTimeForICS` (source):
`dateTime.replace(/[-:]/g, '').split('.')[0] + 'Z'` for a truthy input,
`''` otherwise. -/
def formatDateTimeForICS (dateTime : String) : String :=
  if dateTime = "" then ""
  else
    String.mk (((dateTime.data.filter fun c => !(c = '-' || c = ':')).takeWhile
      fun c => c ≠ '.')) ++ "Z"

/-- Is `c` an ASCII decimal digit (JavaScript `\d`)? -/
def isAsciiDigit (c : Char) : Bool := 48 ≤ c.toNat && c.toNat ≤ 57

/-- The payload-encoder switch.  `baseAppUrl` is the ambient
`window.location.href.split('?')[0]` read by the LinkFolio case. -/
def encodePayload (baseAppUrl : String) (qrType : QrCodeType) (d : QrData) : String :=
  match qrType with
  | .url => jsOr d.url ""
  | .text => jsOr d.text ""
  | .wifi =>
    let enc := jsOr d.encryption "WPA"
    let wifiString := "WIFI:S:" ++ jsOr d.ssid "" ++ ";T:" ++ enc ++ ";"
    let wifiString :=
      if enc ≠ "nopass" ∧ jsTruthy d.password then
        wifiString ++ "P:" ++ jsOr d.password "" ++ ";"
      else wifiString
    wifiString ++ ";"
  | .email =>
    "mailto:" ++ jsOr d.email "" ++ "?subject=" ++ encodeURIComponent (jsOr d.subject "")
      ++ "&body=" ++ encodeURIComponent (jsOr d.body "")
  | .sms =>
    "smsto:" ++ jsOr d.phone "" ++ ":" ++ encodeURIComponent (jsOr d.message "")
  | .geo =>
    "geo:" ++ jsOr d.latitude "" ++ "," ++ jsOr d.longitude ""
  | .vcard =>
    "BEGIN:VCARD\nVERSION:3.0\nN:" ++ jsOr d.lastName "" ++ ";" ++ jsOr d.firstName ""
      ++ "\nFN:" ++ jsOr d.firstName "" ++ " " ++ jsOr d.lastName ""
      ++ "\nORG:" ++ jsOr d.organization ""
      ++ "\nTITLE:" ++ jsOr d.title ""
      ++ "\nTEL;TYPE=WORK,VOICE:" ++ jsOr d.phone ""
      ++ "\nEMAIL:" ++ jsOr d.email ""
      ++ "\nURL:" ++ jsOr d.website ""
      ++ "\nEND:VCARD"
  | .event =>
    "BEGIN:VEVENT\nSUMMARY:" ++ jsOr d.summary ""
      ++ "\nLOCATION:" ++ jsOr d.location ""
      ++ "\nDTSTART:" ++ formatDateTimeForICS (jsOr d.dtstart "")
      ++ "\nDTEND:" ++ formatDateTimeForICS (jsOr d.dtend "")
      ++ "\nDESCRIPTION:" ++ jsOr d.description ""
      ++ "\nEND:VEVENT"
  | .whatsapp =>
    let cleanPhone := String.mk ((jsOr d.phone "").data.filter isAsciiDigit)
    let waUrl := "https://wa.me/" ++ cleanPhone
    if jsTruthy d.message then
      waUrl ++ "?text=" ++ encodeURIComponent (jsOr d.message "")
    else waUrl
  | .linkFolio =>
    let profile : FolioProfile :=
      { profileImageUrl := d.profileImageUrl, name := d.name, title := d.title, links := d.links }
    baseAppUrl ++ "?folio=" ++ encodeURIComponent (folioEncode profile)

/-! ## The standard-render validation loop

The `useEffect` over `[qrValue, qrStyleOptions]`: it resets the status to
`idle` and schedules nothing when the payload is empty or the rendering
instance is absent; otherwise it schedules a debounced check and — crucially
for freshness — its cleanup (`clearTimeout`) cancels the previously
scheduled check before every re-run and thus before any later payload can
take effect. -/

/-- Validation status of a rendered artifact. -/
inductive VStatus where
  | idle | success | failed
deriving Repr, DecidableEq

/-- What the scheduled callback finds when it fires: no `<canvas>` in the
container, a canvas without drawing context, `getImageData` throwing, or a
pixel buffer on which `jsQR` yields `some text` or `none`. -/
inductive RasterEnv where
  | noCanvas
  | noCtx
  | imageError
  | image (decoded : Option String)
deriving Repr, DecidableEq

/-- The body of the scheduled validation callback, given the payload value
`tag` captured by its closure. -/
def runStandardCheck (tag : String) (env : RasterEnv) : VStatus :=
  match env with
  | .noCanvas => .failed
  | .noCtx => .failed
  | .imageError => .failed
  | .image d =>
    match d with
    | some txt => if txt = tag then .success else .failed
    | none => .failed

/-- One run of the validation effect for a fixed payload: the guard
(`!qrValue || !qrCodeStyling.current` ⇒ `idle`, nothing scheduled) followed
— when a check is scheduled and fires — by the callback.  The boolean
records whether a check ran. -/
def standardValidationEffect (qrValue : String) (instancePresent : Bool)
    (env : RasterEnv) : VStatus × Bool :=
  if qrValue = "" ∨ instancePresent = false then (.idle, false)
  else (runStandardCheck qrValue env, true)

/-- State of the validation loop: the live payload, the pending scheduled
check (carrying the payload its closure captured), the published status,
and a log of every published result as
(captured payload, live payload at publication, status). -/
structure ValState where
  live : String
  pending : Option String
  status : VStatus
  published : List (String × String × VStatus)
deriving Repr, DecidableEq

/-- Events of the validation loop: a payload change or a style change
(each re-runs the effect, whose cleanup first cancels any pending check),
and the firing of the pending debounce timer. -/
inductive VEvent where
  | changePayload (p : String)
  | changeStyle
  | fire (env : RasterEnv)
deriving Repr

/-- The transition function of the validation loop. -/
def vstep (s : ValState) (e : VEvent) : ValState :=
  match e with
  | .changePayload p =>
    if p = "" then { s with live := p, pending := none, status := .idle }
    else { s with live := p, pending := some p }
  | .changeStyle =>
    if s.live = "" then { s with pending := none, status := .idle }
    else { s with pending := some s.live }
  | .fire env =>
    match s.pending with
    | none => s
    | some tag =>
      let res := runStandardCheck tag env
      { s with pending := none, status := res,
               published := s.published ++ [(tag, s.live, res)] }

/-- Run the validation loop from a state over an event sequence. -/
def vrun (s : ValState) : List VEvent → ValState
  | [] => s
  | e :: es => vrun (vstep s e) es

/-- A reachable validation-loop state: any pending check's captured payload
is the live payload.  This holds by construction because the effect's
cleanup (`clearTimeout`) cancels the pending check before any payload
change takes effect, and the newly scheduled check captures the new
payload. -/
def vWF (s : ValState) : Prop :=
  ∀ t, s.pending = some t → t = s.live

/-! ## The batch-export pipeline (`handleBatchExport`)

The stages run strictly in sequence inside one `try`; the `catch` surfaces
the thrown error's message and nothing is downloaded.  External effects
are modelled as the environment below; `Except.error m` is an operation
throwing an error whose message is `m`. -/

/-- Environment of one export run: outcomes of the external operations and
whether an AI image is present. -/
structure ExportEnv where
  png : Except String (Option (List Nat))
  svg : Except String (Option (List Nat))
  aiQrImage : Option String
  aiFetch : Except String (List Nat)
  zipGen : Except String (List Nat)
deriving Repr

/-- Outcome of one export run: the files added to the zip, the surfaced
error (if any), the archive offered for download (if any), and the
progress (percentage, message) updates in order. -/
structure ExportOutcome where
  files : List (String × List Nat)
  error : Option String
  downloaded : Option (List Nat)
  progress : List (Nat × String)
deriving Repr

/-- The final two stages (compression and download). -/
def exportFinish (files : List (String × List Nat)) (progress : List (Nat × String))
    (env : ExportEnv) : ExportOutcome :=
  let progress := progress ++ [(90, "Compressing files...")]
  match env.zipGen with
  | .error e => ⟨files, some e, none, progress⟩
  | .ok archive =>
    ⟨files, none, some archive, progress ++ [(100, "Download starting...")]⟩

/-- `handleBatchExport` for a non-empty payload with the rendering instance
present (otherwise the function returns early with an error and no export
runs). -/
def handleBatchExport (env : ExportEnv) : ExportOutcome :=
  let progress := [(0, "Starting export..."), (10, "Adding standard-qr.png...")]
  match env.png with
  | .error e => ⟨[], some e, none, progress⟩
  | .ok pngBlob =>
    let files := match pngBlob with
      | some b => [("standard-qr.png", b)]
      | none => []
    let progress := progress ++ [(30, "Adding standard-qr.svg...")]
    match env.svg with
    | .error e => ⟨files, some e, none, progress⟩
    | .ok svgBlob =>
      let files := files ++ (match svgBlob with
        | some b => [("standard-qr.svg", b)]
        | none => [])
      match env.aiQrImage with
      | some _ =>
        let progress := progress ++ [(60, "Adding ai-art-qr.png...")]
        (match env.aiFetch with
         | .error e => ⟨files, some e, none, progress⟩
         | .ok aiBlob => exportFinish (files ++ [("ai-art-qr.png", aiBlob)]) progress env)
      | none => exportFinish files progress env

/-- `Object.keys` of a parsed JSON value (property names, in order). -/
def jKeys : Json → List String
  | .obj ms => ms.map (fun m => m.1)
  | _ => []

/-! ## Theorems -/

/-- JavaScript `s || ''` on a defined string is the string itself. -/
theorem jsOr_some_empty (s : String) : jsOr (some s) "" = s := by
  by_cases h : s = "" <;> simp [jsOr, h]

/-- C4: for every ssid `X` and every password value,
`encode(WiFiCredential, {ssid:'X', encryption:'nopass'})` is exactly
`'WIFI:S:X;T:nopass;;'` with no `P:` segment, and an absent encryption
field behaves exactly as the default `'WPA'`. -/
theorem claim_C4 :
    (∀ (base ssid : String) (pw : Option String),
      encodePayload base .wifi { ssid := some ssid, encryption := some "nopass", password := pw }
        = "WIFI:S:" ++ ssid ++ ";T:nopass;;") ∧
    (∀ (base : String) (d : QrData), d.encryption = none →
      encodePayload base .wifi d = encodePayload base .wifi { d with encryption := some "WPA" }) := by
  constructor
  · intro base ssid pw
    simp only [encodePayload, jsOr_some_empty]
    simp only [jsOr]
    norm_num
    apply String.ext
    simp [String.data_append, List.append_assoc]
  · intro base d h
    simp [encodePayload, jsOr, h]

/-- Witness for C4 at concrete inputs. -/
theorem claim_C4_witness :
    encodePayload "b" .wifi { ssid := some "X", encryption := some "nopass", password := some "pw" }
      = "WIFI:S:X;T:nopass;;" ∧
    encodePayload "b" .wifi { ssid := some "X", password := some "pw" }
      = encodePayload "b" .wifi { ssid := some "X", password := some "pw", encryption := some "WPA" } :=
  ⟨claim_C4.1 "b" "X" (some "pw"), claim_C4.2 "b" { ssid := some "X", password := some "pw" } rfl⟩

/-- C10: when the encryption is some non-`'nopass'` value, the `P:` segment
is present exactly when the password is truthy (non-empty and defined);
with an empty or absent password the payload is `WIFI:S:<ssid>;T:<enc>;;`. -/
theorem claim_C10 (base : String) (d : QrData) (enc : String)
    (henc : d.encryption = some enc) (hne : enc ≠ "nopass") (hnemp : enc ≠ "") :
    (jsTruthy d.password = false →
      encodePayload base .wifi d = "WIFI:S:" ++ jsOr d.ssid "" ++ ";T:" ++ enc ++ ";;") ∧
    (jsTruthy d.password = true →
      encodePayload base .wifi d
        = "WIFI:S:" ++ jsOr d.ssid "" ++ ";T:" ++ enc ++ ";P:" ++ jsOr d.password "" ++ ";;") := by
  have he : jsOr d.encryption "WPA" = enc := by simp [jsOr, henc, hnemp]
  constructor
  · intro hpw
    simp only [encodePayload, he, hpw]
    norm_num
    apply String.ext
    simp [String.data_append, List.append_assoc]
  · intro hpw
    simp only [encodePayload, he, hpw]
    simp only [ne_eq, hne, not_false_iff, and_true, if_true]
    apply String.ext
    simp [String.data_append, List.append_assoc]

/-- Witness for C10 at concrete inputs. -/
theorem claim_C10_witness :
    encodePayload "b" .wifi { ssid := some "N", encryption := some "WEP" }
      = "WIFI:S:N;T:WEP;;" ∧
    encodePayload "b" .wifi { ssid := some "N", encryption := some "WEP", password := some "pw" }
      = "WIFI:S:N;T:WEP;P:pw;;" := by
  refine ⟨?_, ?_⟩
  · exact (claim_C10 "b" { ssid := some "N", encryption := some "WEP" } "WEP" rfl
      (by decide) (by decide)).1 rfl
  · exact (claim_C10 "b" { ssid := some "N", encryption := some "WEP", password := some "pw" }
      "WEP" rfl (by decide) (by decide)).2 rfl

/-- C9: the payload encoder is a deterministic pure function — with the
ambient base address fixed, identical (kind, values) inputs yield the
identical payload string. -/
theorem claim_C9 (base : String) (t : QrCodeType) (d d' : QrData) (h : d = d') :
    encodePayload base t d = encodePayload base t d' := by
  rw [h]

/-- Witness for C9 at a concrete input. -/
theorem claim_C9_witness :
    encodePayload "b" .url { url := some "https://x" } = encodePayload "b" .url { url := some "https://x" } :=
  claim_C9 "b" .url { url := some "https://x" } { url := some "https://x" } rfl

/-- C7: when a standard-render validation check runs and raster acquisition
fails (no canvas mounted, no drawing context, `getImageData` throwing), the
status becomes `failed`; when the payload is empty, the status is `idle`
and no check is attempted. -/
theorem claim_C7 :
    (∀ (inst : Bool) (env : RasterEnv), standardValidationEffect "" inst env = (.idle, false)) ∧
    (∀ q : String, q ≠ "" →
      standardValidationEffect q true .noCanvas = (.failed, true) ∧
      standardValidationEffect q true .noCtx = (.failed, true) ∧
      standardValidationEffect q true .imageError = (.failed, true)) := by
  constructor
  · intro inst env
    simp [standardValidationEffect]
  · intro q hq
    simp [standardValidationEffect, hq, runStandardCheck]

/-- Witness for C7 at concrete inputs. -/
theorem claim_C7_witness :
    standardValidationEffect "" true (.image (some "x")) = (.idle, false) ∧
    standardValidationEffect "x" true .noCanvas = (.failed, true) :=
  ⟨claim_C7.1 true (.image (some "x")), (claim_C7.2 "x" (by decide)).1⟩

/-- A step of the validation loop preserves well-formedness. -/
theorem vstep_wf (s : ValState) (e : VEvent) (h : vWF s) : vWF (vstep s e) := by
  cases e with
  | changePayload p =>
    by_cases hp : p = "" <;> simp [vstep, vWF, hp]
  | changeStyle =>
    by_cases hl : s.live = "" <;> simp [vstep, vWF, hl]
  | fire env =>
    cases hpend : s.pending with
    | none => simpa [vstep, hpend] using h
    | some tag => simp [vstep, hpend, vWF]

/-- Any entry published during a run from a well-formed state has its
captured payload equal to the live payload at publication time. -/
theorem vrun_fresh (es : List VEvent) : ∀ (s : ValState), vWF s →
    ∀ x ∈ (vrun s es).published, x ∈ s.published ∨ x.1 = x.2.1 := by
  induction es with
  | nil => intro s _ x hx; exact Or.inl hx
  | cons e es ih =>
    intro s hs x hx
    have hs' : vWF (vstep s e) := vstep_wf s e hs
    rcases ih (vstep s e) hs' x (by simpa [vrun] using hx) with h | h
    · -- x was already published after the single step
      cases e with
      | changePayload p =>
        by_cases hp : p = "" <;> simp_all [vstep]
      | changeStyle =>
        by_cases hl : s.live = "" <;> simp_all [vstep]
      | fire env =>
        cases hpend : s.pending with
        | none => simp_all [vstep]
        | some tag =>
          simp only [vstep, hpend, List.mem_append, List.mem_singleton] at h
          rcases h with h | h
          · exact Or.inl h
          · right
            rw [h]
            simpa using hs tag hpend
    · exact Or.inr h

/-- C6: (a) from any well-formed state, a published validation result's
captured payload always equals the live payload at publication — a check
started against `P₁` never publishes once the live payload is `P₂ ≠ P₁`;
(b) after three rapid successive payload changes and the debounce firing,
the status is exactly the decode outcome for the final payload and the
only published entry is for the final payload. -/
theorem claim_C6 (s : ValState) (hwf : vWF s) (p1 p2 p3 : String) (env : RasterEnv) :
    (∀ es, ∀ x ∈ (vrun s es).published, x ∈ s.published ∨ x.1 = x.2.1) ∧
    (p3 ≠ "" →
      (vrun s [.changePayload p1, .changePayload p2, .changePayload p3, .fire env]).status
          = runStandardCheck p3 env ∧
      (vrun s [.changePayload p1, .changePayload p2, .changePayload p3, .fire env]).published
          = s.published ++ [(p3, p3, runStandardCheck p3 env)]) ∧
    (p3 = "" →
      (vrun s [.changePayload p1, .changePayload p2, .changePayload p3, .fire env]).status
          = .idle ∧
      (vrun s [.changePayload p1, .changePayload p2, .changePayload p3, .fire env]).published
          = s.published) := by
  refine ⟨fun es => vrun_fresh es s hwf, ?_, ?_⟩
  · intro h3
    by_cases h1 : p1 = "" <;> by_cases h2 : p2 = "" <;>
      simp [vrun, vstep, h1, h2, h3]
  · intro h3
    by_cases h1 : p1 = "" <;> by_cases h2 : p2 = "" <;>
      simp [vrun, vstep, h1, h2, h3]

/-- Witness for C6 at a concrete state and event sequence. -/
theorem claim_C6_witness :
    (∀ x ∈ (vrun ⟨"a", some "a", .idle, []⟩
        [.fire (.image (some "a"))]).published, x ∈ ([] : List (String × String × VStatus)) ∨ x.1 = x.2.1) ∧
    (vrun ⟨"a", some "a", .idle, []⟩
        [.changePayload "x", .changePayload "y", .changePayload "z", .fire (.image (some "y"))]).status
      = runStandardCheck "z" (.image (some "y")) := by
  have h := claim_C6 ⟨"a", some "a", .idle, []⟩
    (by intro t ht
        have h2 : "a" = t := by simpa using ht
        exact h2.symm) "x" "y" "z" (.image (some "y"))
  exact ⟨fun x hx => h.1 [.fire (.image (some "a"))] x hx, (h.2.1 (by decide)).1⟩


/-- C5 (amended): if any export stage fails, the run surfaces exactly that
stage's error message, offers no archive for download, and the zip files
accumulated at abort contain no artifact of any later stage.  (The surfaced
message is the failing operation's own message; it does not necessarily
identify the failing stage — see the counterexample.) -/
theorem claim_C5 (env : ExportEnv) (e : String) :
    (env.png = .error e →
      (handleBatchExport env).error = some e ∧ (handleBatchExport env).downloaded = none ∧
      (handleBatchExport env).files = []) ∧
    (∀ b, env.png = .ok b → env.svg = .error e →
      (handleBatchExport env).error = some e ∧ (handleBatchExport env).downloaded = none ∧
      ∀ f ∈ (handleBatchExport env).files, f.1 = "standard-qr.png") ∧
    (∀ b b2 u, env.png = .ok b → env.svg = .ok b2 → env.aiQrImage = some u →
      env.aiFetch = .error e →
      (handleBatchExport env).error = some e ∧ (handleBatchExport env).downloaded = none ∧
      ∀ f ∈ (handleBatchExport env).files, f.1 = "standard-qr.png" ∨ f.1 = "standard-qr.svg") ∧
    (∀ b b2, env.png = .ok b → env.svg = .ok b2 →
      (env.aiQrImage = none ∨ ∃ u blob, env.aiQrImage = some u ∧ env.aiFetch = .ok blob) →
      env.zipGen = .error e →
      (handleBatchExport env).error = some e ∧ (handleBatchExport env).downloaded = none) := by
  refine ⟨?_, ?_, ?_, ?_⟩
  · intro hpng
    simp [handleBatchExport, hpng]
  · intro b hpng hsvg
    refine ⟨?_, ?_, ?_⟩ <;>
      cases b <;> simp_all [handleBatchExport]
  · intro b b2 u hpng hsvg hai hfetch
    refine ⟨?_, ?_, ?_⟩ <;>
      cases b <;> cases b2 <;> simp_all [handleBatchExport]
  · intro b b2 hpng hsvg hai hzip
    rcases hai with hai | ⟨u, blob, hai, hfetch⟩ <;>
      cases b <;> cases b2 <;>
        simp_all [handleBatchExport, exportFinish]

/-- Witness for C5 at concrete environments, one per failing stage. -/
theorem claim_C5_witness :
    (handleBatchExport ⟨.error "m1", .ok none, none, .ok [], .ok []⟩).error = some "m1" ∧
    (handleBatchExport ⟨.ok (some [1]), .error "m2", none, .ok [], .ok []⟩).error = some "m2" ∧
    (handleBatchExport ⟨.ok (some [1]), .ok (some [2]), some "u", .error "m3", .ok []⟩).error
      = some "m3" ∧
    (handleBatchExport ⟨.ok (some [1]), .ok (some [2]), none, .ok [], .error "m4"⟩).error
      = some "m4" := by
  refine ⟨?_, ?_, ?_, ?_⟩
  · exact ((claim_C5 ⟨.error "m1", .ok none, none, .ok [], .ok []⟩ "m1").1 rfl).1
  · exact ((claim_C5 ⟨.ok (some [1]), .error "m2", none, .ok [], .ok []⟩ "m2").2.1
      (some [1]) rfl rfl).1
  · exact ((claim_C5 ⟨.ok (some [1]), .ok (some [2]), some "u", .error "m3", .ok []⟩ "m3").2.2.1
      (some [1]) (some [2]) "u" rfl rfl rfl rfl).1
  · exact ((claim_C5 ⟨.ok (some [1]), .ok (some [2]), none, .ok [], .error "m4"⟩ "m4").2.2.2
      (some [1]) (some [2]) rfl rfl (Or.inl rfl) rfl).1

/-- C5 counterexample to "the surfaced error message identifies the failing
stage": a run failing at the PNG stage and a run failing at the SVG stage
(distinguishable by the files accumulated at abort) surface the *identical*
error message `"boom"` — the message is the thrown error's own text and
carries no stage identification. -/
theorem claim_C5_counterexample :
    (handleBatchExport ⟨.error "boom", .ok (some []), none, .ok [], .ok []⟩).error
        = (handleBatchExport ⟨.ok (some []), .error "boom", none, .ok [], .ok []⟩).error ∧
    (handleBatchExport ⟨.error "boom", .ok (some []), none, .ok [], .ok []⟩).files = [] ∧
    (handleBatchExport ⟨.ok (some []), .error "boom", none, .ok [], .ok []⟩).files
        = [("standard-qr.png", [])] := by
  refine ⟨rfl, rfl, rfl⟩

/-- C8: for every non-empty timestamp the ICS normalizer deletes every
`-` and `:`, truncates at the first `.` (dropping any fractional part) and
appends a trailing `Z` — so the result is `core ++ "Z"` where `core`
contains no `-`, `:` or `.`; and the concrete calendar-event payload for
`dtstart = '2024-05-01T10:30:00.000'` carries exactly
`DTSTART:20240501T103000Z`. -/
theorem claim_C8 :
    (∀ s : String, s ≠ "" →
      formatDateTimeForICS s
          = String.mk (((s.data.filter fun c => !(c = '-' || c = ':')).takeWhile
              fun c => c ≠ '.')) ++ "Z" ∧
      ∀ c ∈ ((s.data.filter fun c => !(c = '-' || c = ':')).takeWhile fun c => c ≠ '.'),
        c ≠ '-' ∧ c ≠ ':' ∧ c ≠ '.') ∧
    encodePayload "https://app" .event { dtstart := some "2024-05-01T10:30:00.000" }
      = "BEGIN:VEVENT\nSUMMARY:\nLOCATION:\nDTSTART:20240501T103000Z\nDTEND:\nDESCRIPTION:\nEND:VEVENT" := by
  constructor
  · intro s hs
    constructor
    · simp [formatDateTimeForICS, hs]
    · intro c hc
      have hsub : c ∈ s.data.filter fun c => !(c = '-' || c = ':') :=
        List.takeWhile_subset _ hc
      have hpred := (List.mem_filter.mp hsub).2
      have hdot := List.mem_takeWhile_imp hc
      refine ⟨?_, ?_, ?_⟩ <;> simp_all
  · rfl

/-- Witness for C8 at a concrete timestamp. -/
theorem claim_C8_witness :
    formatDateTimeForICS "2024-05-01T10:30:00.000" = "20240501T103000" ++ "Z" := by
  have h := (claim_C8.1 "2024-05-01T10:30:00.000" (by decide)).1
  simpa using h


/-- C2 (amended): decoding the empty token yields the structural error;
decoding any token whose base64/UTF-8 transform fails yields the
structural error (the caught exception produces `"{}"`, which is then
rejected by the empty-object guard); decoding any token whose decoded text
is not valid JSON yields the structural error; and a non-empty token whose
parsed JSON value has zero keys is rejected.  All decode paths are total —
no input crashes.  (The source guard counts *all* keys of the parsed
object, not recognized keys only — see the counterexample.) -/
theorem claim_C2 :
    folioDecodeData "" = none ∧
    (∀ t : String, t ≠ "" → (atobModel t).bind utf8Decode = none →
      folioDecodeData t = none) ∧
    (∀ t : String, t ≠ "" → jsonParse (base64ToUtf8 t) = none →
      folioDecodeData t = none) ∧
    (∀ (t : String) (v : Json), t ≠ "" → jsonParse (base64ToUtf8 t) = some v →
      keysLen v = 0 → folioDecodeData t = none) := by
  refine ⟨by simp [folioDecodeData], ?_, ?_, ?_⟩
  · intro t ht hb
    have hjj : base64ToUtf8 t = "{}" := by simp [base64ToUtf8, hb]
    have hlen : t.length > 0 := by
      cases t with
      | mk data =>
        cases data with
        | nil => simp at ht
        | cons c cs => simp [String.length]
    simp [folioDecodeData, ht, hjj, hlen]
    rfl
  · intro t ht hj
    simp [folioDecodeData, ht, hj]
  · intro t v ht hj hk
    have hlen : t.length > 0 := by
      cases t with
      | mk data =>
        cases data with
        | nil => simp at ht
        | cons c cs => simp [String.length]
    simp [folioDecodeData, ht, hj, hk, hlen]

/-- Witness for C2 at concrete tokens: `"!!!"` is invalid base64,
`"bm90IGpzb24="` decodes to the non-JSON text `not json`, and `"e30="`
decodes to the empty object `{}`. -/
theorem claim_C2_witness :
    folioDecodeData "!!!" = none ∧
    folioDecodeData "bm90IGpzb24=" = none ∧
    folioDecodeData "e30=" = none := by
  refine ⟨?_, ?_, ?_⟩
  · exact claim_C2.2.1 "!!!" (by decide) rfl
  · exact claim_C2.2.2.1 "bm90IGpzb24=" (by decide) rfl
  · exact claim_C2.2.2.2 "e30=" (Json.obj []) (by decide) rfl rfl

/-- C2 counterexample to "zero *recognized* keys are rejected": the
non-empty token `eyJmb28iOiJiYXIifQ==` encodes `{"foo":"bar"}`, whose
parsed object has zero recognized keys (none of `profileImageUrl`, `name`,
`title`, `links`), yet the decoder accepts it and the viewer reconstructs
an all-absent profile rather than showing the invalid-link outcome. -/
theorem claim_C2_counterexample :
    folioDecodeData "eyJmb28iOiJiYXIifQ==" = some (Json.obj [("foo", Json.str "bar")]) ∧
    jGet (Json.obj [("foo", Json.str "bar")]) "name" = none ∧
    jGet (Json.obj [("foo", Json.str "bar")]) "profileImageUrl" = none ∧
    jGet (Json.obj [("foo", Json.str "bar")]) "title" = none ∧
    jGet (Json.obj [("foo", Json.str "bar")]) "links" = none ∧
    folioDecodeProfile "eyJmb28iOiJiYXIifQ=="
      = some { profileImageUrl := none, name := none, title := none, links := [] } := by
  exact ⟨rfl, rfl, rfl, rfl, rfl, rfl⟩


/-! ### Round-trip of the text-to-token transform -/

/-- Every byte produced by the UTF-8 encoder is below 256. -/
theorem utf8EncodeChar_lt (c : Char) : ∀ b ∈ utf8EncodeChar c, b < 256 := by
  have hv : c.toNat < 0xD800 ∨ (0xE000 ≤ c.toNat ∧ c.toNat < 0x110000) := c.valid
  intro b hb
  simp only [utf8EncodeChar] at hb
  split_ifs at hb <;> simp at hb <;> omega

/-- The UTF-8 encoding of a character is non-empty. -/
theorem utf8EncodeChar_length_pos (c : Char) : 0 < (utf8EncodeChar c).length := by
  simp only [utf8EncodeChar]
  split_ifs <;> simp

/-- Decoding the UTF-8 encoding of one character consumes exactly its
bytes and one unit of fuel. -/
theorem utf8DecodeF_encodeChar (c : Char) (fuel : Nat) (rest : List Nat) :
    utf8DecodeF (fuel + 1) (utf8EncodeChar c ++ rest)
      = (utf8DecodeF fuel rest).map (c :: ·) := by
  have hv : c.toNat < 0xD800 ∨ (0xE000 ≤ c.toNat ∧ c.toNat < 0x110000) := c.valid
  have hofn : Char.ofNat c.toNat = c := Char.ofNat_toNat c
  generalize hn : c.toNat = n at hv hofn
  by_cases h1 : n < 0x80
  · have he : utf8EncodeChar c = [n] := by simp [utf8EncodeChar, hn, h1]
    rw [he, List.cons_append, List.nil_append, utf8DecodeF, if_pos h1, hofn]
  · by_cases h2 : n < 0x800
    · have he : utf8EncodeChar c = [0xC0 + n / 64, 0x80 + n % 64] := by
        simp [utf8EncodeChar, hn, h1, h2]
      have hcont : isCont (0x80 + n % 64) = true := by simp [isCont]; omega
      rw [he, List.cons_append, List.cons_append, List.nil_append, utf8DecodeF,
        if_neg (by omega), if_neg (by omega), if_pos (by omega)]
      simp only [List.head?_cons, Option.some_bind]
      rw [hcont, if_pos rfl, if_pos (by omega)]
      have harith : n / 64 * 64 + n % 64 = n := by omega
      simp [harith, hofn]
    · by_cases h3 : n < 0x10000
      · have he : utf8EncodeChar c
            = [0xE0 + n / 4096, 0x80 + (n / 64) % 64, 0x80 + n % 64] := by
          simp [utf8EncodeChar, hn, h1, h2, h3]
        have hcont : (isCont (0x80 + n / 64 % 64) && isCont (0x80 + n % 64)) = true := by
          simp only [isCont, Bool.and_eq_true, decide_eq_true_eq]
          constructor <;> simp <;> omega
        rw [he, List.cons_append, List.cons_append, List.cons_append, List.nil_append,
          utf8DecodeF, if_neg (by omega), if_neg (by omega), if_neg (by omega),
          if_pos (by omega)]
        simp only [List.head?_cons, List.drop_one, List.tail_cons, Option.some_bind]
        rw [hcont, if_pos rfl, if_pos (by constructor <;> omega)]
        have harith : n / 4096 * 4096 + n / 64 % 64 * 64 + n % 64 = n := by omega
        simp [harith, hofn]
      · have he : utf8EncodeChar c
            = [0xF0 + n / 262144, 0x80 + (n / 4096) % 64, 0x80 + (n / 64) % 64, 0x80 + n % 64] := by
          simp [utf8EncodeChar, hn, h1, h2, h3]
        have hcont : (isCont (0x80 + n / 4096 % 64) && isCont (0x80 + n / 64 % 64)
            && isCont (0x80 + n % 64)) = true := by
          simp only [isCont, Bool.and_eq_true, decide_eq_true_eq]
          refine ⟨⟨?_, ?_⟩, ?_⟩ <;> simp <;> omega
        rw [he, List.cons_append, List.cons_append, List.cons_append, List.cons_append,
          List.nil_append, utf8DecodeF, if_neg (by omega), if_neg (by omega),
          if_neg (by omega), if_neg (by omega), if_pos (by omega)]
        simp only [List.head?_cons, List.drop_one, List.tail_cons, List.drop_succ_cons,
          List.drop_zero, Option.some_bind]
        rw [hcont, if_pos rfl, if_pos (by constructor <;> omega)]
        have harith : n / 262144 * 262144 + n / 4096 % 64 * 4096 + n / 64 % 64 * 64 + n % 64 = n := by
          omega
        simp [harith, hofn]

/-- With fuel at least the number of characters, decoding inverts the
UTF-8 encoding of a character list. -/
theorem utf8DecodeF_flatMap (cs : List Char) :
    ∀ fuel, cs.length ≤ fuel →
      utf8DecodeF fuel (cs.flatMap utf8EncodeChar) = some cs := by
  induction cs with
  | nil => intro fuel _; cases fuel <;> rfl
  | cons c cs ih =>
    intro fuel hf
    match fuel, hf with
    | f + 1, hf =>
      rw [List.flatMap_cons, utf8DecodeF_encodeChar, ih f (by simpa using hf)]
      rfl

/-- The byte count of the UTF-8 encoding dominates the character count. -/
theorem length_le_utf8Encode_length (cs : List Char) :
    cs.length ≤ (cs.flatMap utf8EncodeChar).length := by
  induction cs with
  | nil => simp
  | cons c cs ih =>
    rw [List.flatMap_cons, List.length_append, List.length_cons]
    have := utf8EncodeChar_length_pos c
    omega

/-- UTF-8 decoding inverts UTF-8 encoding. -/
theorem utf8Decode_utf8Encode (s : String) : utf8Decode (utf8Encode s) = some s.data := by
  rw [utf8Encode, utf8Decode]
  exact utf8DecodeF_flatMap s.data _ (length_le_utf8Encode_length s.data)


/-- Looking a sextet character back up recovers the sextet. -/
theorem charSextet_sextetChar : ∀ n, n < 64 → charSextet (sextetChar n) = some n := by
  decide

/-- Sextet characters are never `=`. -/
theorem sextetChar_ne_eq : ∀ n, sextetChar n ≠ '=' := by
  intro n
  by_cases h : n < 64
  · revert n
    decide
  · rw [sextetChar, List.getD_eq_default]
    · decide
    · have : b64Alphabet.length = 64 := by decide
      omega

/-- Sextet characters and `=` are not ASCII whitespace. -/
theorem sextetChar_not_ws : ∀ n, isB64Ws (sextetChar n) = false := by
  intro n
  by_cases h : n < 64
  · revert n
    decide
  · rw [sextetChar, List.getD_eq_default]
    · decide
    · have : b64Alphabet.length = 64 := by decide
      omega

/-- `btoa` output contains only alphabet characters and `=`. -/
theorem b64Encode_chars (bs : List Nat) :
    ∀ c ∈ b64Encode bs, (∃ n, c = sextetChar n) ∨ c = '=' := by
  induction bs using b64Encode.induct with
  | case1 => simp [b64Encode]
  | case2 a =>
    intro c hc
    simp only [b64Encode, List.mem_cons, List.not_mem_nil, or_false] at hc
    rcases hc with rfl | rfl | rfl | rfl
    · exact Or.inl ⟨_, rfl⟩
    · exact Or.inl ⟨_, rfl⟩
    · exact Or.inr rfl
    · exact Or.inr rfl
  | case3 a b =>
    intro c hc
    simp only [b64Encode, List.mem_cons, List.not_mem_nil, or_false] at hc
    rcases hc with rfl | rfl | rfl | rfl
    · exact Or.inl ⟨_, rfl⟩
    · exact Or.inl ⟨_, rfl⟩
    · exact Or.inl ⟨_, rfl⟩
    · exact Or.inr rfl
  | case4 a b cc r ih =>
    intro c hc
    simp only [b64Encode, List.mem_cons] at hc
    rcases hc with rfl | rfl | rfl | rfl | h
    · exact Or.inl ⟨_, rfl⟩
    · exact Or.inl ⟨_, rfl⟩
    · exact Or.inl ⟨_, rfl⟩
    · exact Or.inl ⟨_, rfl⟩
    · exact ih c h

/-- Stripping ASCII whitespace leaves `btoa` output unchanged. -/
theorem b64Encode_filter_ws (bs : List Nat) :
    (b64Encode bs).filter (fun c => !isB64Ws c) = b64Encode bs := by
  rw [List.filter_eq_self]
  intro c hc
  rcases b64Encode_chars bs c hc with ⟨n, rfl⟩ | rfl
  · simp [sextetChar_not_ws]
  · decide

/-- `btoa` output of a non-empty byte list is non-empty. -/
theorem b64Encode_ne_nil (bs : List Nat) (h : bs ≠ []) : b64Encode bs ≠ [] := by
  match bs, h with
  | [a], _ => simp [b64Encode]
  | [a, b], _ => simp [b64Encode]
  | a :: b :: c :: r, _ => simp [b64Encode]

/-- Decoding the `btoa` encoding of a byte list recovers the bytes. -/
theorem b64DecodeChunks_b64Encode (bs : List Nat) (hlt : ∀ b ∈ bs, b < 256) :
    b64DecodeChunks (b64Encode bs) = some bs := by
  induction bs using b64Encode.induct with
  | case1 => rfl
  | case2 a =>
    have ha : a < 256 := hlt a (by simp)
    rw [b64Encode]
    rw [show ([sextetChar (a / 4), sextetChar (a % 4 * 16), '=', '=']
        = sextetChar (a / 4) :: sextetChar (a % 4 * 16) :: '=' :: '=' :: []) from rfl]
    rw [b64DecodeChunks, if_pos ⟨rfl, rfl⟩, if_pos rfl]
    rw [charSextet_sextetChar _ (by omega), charSextet_sextetChar _ (by omega)]
    simp only [Option.pure_def, Option.bind_eq_bind, Option.some_bind]
    have h4 : a / 4 * 4 + a % 4 * 16 / 16 = a := by omega
    rw [h4]
  | case3 a b =>
    have ha : a < 256 := hlt a (by simp)
    have hb : b < 256 := hlt b (by simp)
    rw [b64Encode]
    rw [show ([sextetChar (a / 4), sextetChar (a % 4 * 16 + b / 16), sextetChar (b % 16 * 4), '=']
        = sextetChar (a / 4) :: sextetChar (a % 4 * 16 + b / 16) :: sextetChar (b % 16 * 4)
          :: '=' :: []) from rfl]
    rw [b64DecodeChunks, if_pos ⟨rfl, rfl⟩, if_neg (sextetChar_ne_eq _)]
    rw [charSextet_sextetChar _ (by omega), charSextet_sextetChar _ (by omega),
      charSextet_sextetChar _ (by omega)]
    simp only [Option.pure_def, Option.bind_eq_bind, Option.some_bind]
    have h1 : a / 4 * 4 + (a % 4 * 16 + b / 16) / 16 = a := by omega
    have h2 : (a % 4 * 16 + b / 16) % 16 * 16 + b % 16 * 4 / 4 = b := by omega
    rw [h1, h2]
  | case4 a b c r ih =>
    have ha : a < 256 := hlt a (by simp)
    have hb : b < 256 := hlt b (by simp)
    have hc : c < 256 := hlt c (by simp)
    have hr : ∀ x ∈ r, x < 256 := fun x hx => hlt x (by simp [hx])
    rw [b64Encode, b64DecodeChunks]
    rw [if_neg ?hpad]
    case hpad =>
      intro hand
      exact sextetChar_ne_eq _ hand.2
    rw [charSextet_sextetChar _ (by omega), charSextet_sextetChar _ (by omega),
      charSextet_sextetChar _ (by omega), charSextet_sextetChar _ (by omega)]
    simp only [Option.pure_def, Option.bind_eq_bind, Option.some_bind]
    rw [ih hr]
    simp only [Option.some_bind]
    have h1 : a / 4 * 4 + (a % 4 * 16 + b / 16) / 16 = a := by omega
    have h2 : (a % 4 * 16 + b / 16) % 16 * 16 + (b % 16 * 4 + c / 64) / 4 = b := by omega
    have h3 : (b % 16 * 4 + c / 64) % 4 * 64 + c % 64 = c := by omega
    rw [h1, h2, h3]

/-- `atob` inverts `btoa` on byte lists below 256. -/
theorem atobModel_b64Encode (bs : List Nat) (hlt : ∀ b ∈ bs, b < 256) :
    atobModel (String.mk (b64Encode bs)) = some bs := by
  rw [atobModel]
  show b64DecodeChunks ((b64Encode bs).filter fun c => !isB64Ws c) = some bs
  rw [b64Encode_filter_ws, b64DecodeChunks_b64Encode bs hlt]

/-- `base64ToUtf8` inverts `utf8ToBase64`. -/
theorem base64ToUtf8_utf8ToBase64 (s : String) : base64ToUtf8 (utf8ToBase64 s) = s := by
  rw [utf8ToBase64, base64ToUtf8, atobModel_b64Encode (utf8Encode s) ?hb]
  case hb =>
    intro b hb
    rw [utf8Encode] at hb
    obtain ⟨c, _, hbc⟩ := List.mem_flatMap.mp hb
    exact utf8EncodeChar_lt c b hbc
  rw [Option.some_bind, utf8Decode_utf8Encode]


/-! ### Round-trip of `JSON.stringify` / `JSON.parse` on the folio shape -/

/-- A hexadecimal digit emitted by the escaper reads back as its value. -/
theorem hexVal_lowerHexDigit : ∀ m, m < 16 → hexVal (lowerHexDigit m) = some m := by
  decide

/-- The string-body parser consumes a single-character escape. -/
theorem parseStrUnits_esc (e : Char) (u : Nat) (r : List Char)
    (he : escUnit e = some u) (hu : e ≠ 'u') :
    parseStrUnits ('\\' :: e :: r)
      = (parseStrUnits r).map (fun p => (u :: p.1, p.2)) := by
  rw [parseStrUnits.eq_def]
  split
  · simp_all
  · simp_all
  · rename_i heq
    injection heq with h1 h2
    injection h2 with h3 h4
    exact absurd h3 hu
  · rename_i heq
    injection heq with h1 h2
    injection h2 with h3 h4
    subst h3
    subst h4
    rw [he]
    simp only [Option.some_bind, Option.bind_eq_bind, Option.pure_def]
    cases parseStrUnits r <;> rfl
  · rename_i hq hgu hg heq
    injection heq with h1 h2
    exact (hg e r h1.symm h2.symm).elim

/-- The string-body parser reads a `\u00XX` control-character escape back
to its code unit. -/
theorem parseStrUnits_u (c : Char) (r : List Char) (hc : c.toNat < 0x20) :
    parseStrUnits ('\\' :: 'u' :: '0' :: '0'
        :: lowerHexDigit (c.toNat / 16) :: lowerHexDigit (c.toNat % 16) :: r)
      = (parseStrUnits r).map (fun p => (c.toNat :: p.1, p.2)) := by
  rw [parseStrUnits.eq_def]
  split
  · simp_all
  · simp_all
  · rename_i heq
    injection heq with h1 h2
    injection h2 with h3 h4
    injection h4 with h5 h6
    injection h6 with h7 h8
    injection h8 with h9 h10
    injection h10 with h11 h12
    subst h5
    subst h7
    subst h9
    subst h11
    subst h12
    rw [show hexVal '0' = some 0 from rfl]
    rw [hexVal_lowerHexDigit _ (by omega), hexVal_lowerHexDigit _ (by omega)]
    simp only [Option.some_bind, Option.bind_eq_bind, Option.pure_def]
    have harith : 0 * 4096 + 0 * 256 + c.toNat / 16 * 16 + c.toNat % 16 = c.toNat := by omega
    rw [harith]
    cases parseStrUnits r <;> rfl
  · rename_i hgu heq
    injection heq with h1 h2
    injection h2 with h3 h4
    exact (hgu '0' '0' (lowerHexDigit (c.toNat / 16)) (lowerHexDigit (c.toNat % 16)) r
      h3.symm h4.symm).elim
  · rename_i hq hgu hg heq
    injection heq with h1 h2
    exact (hg 'u' ('0' :: '0' :: lowerHexDigit (c.toNat / 16) :: lowerHexDigit (c.toNat % 16) :: r)
      h1.symm h2.symm).elim

/-- The string-body parser consumes a literal (unescaped) character. -/
theorem parseStrUnits_lit (c : Char) (r : List Char)
    (h1 : c ≠ '"') (h2 : c ≠ '\\') (h3 : ¬ c.toNat < 0x20) :
    parseStrUnits (c :: r)
      = (parseStrUnits r).map (fun p => (c.toNat :: p.1, p.2)) := by
  rw [parseStrUnits.eq_def]
  split
  · simp_all
  · simp_all
  · rename_i heq
    injection heq with h4 h5
    exact absurd h4 h2
  · rename_i heq
    injection heq with h4 h5
    exact absurd h4 h2
  · rename_i heq
    injection heq with h4 h5
    subst h4
    subst h5
    rw [if_neg h3]
    simp only [Option.some_bind, Option.bind_eq_bind, Option.pure_def]
    cases parseStrUnits r <;> rfl


/-- The string-body parser consumes the escape sequence `JSON.stringify`
emits for any character, recovering its code unit. -/
theorem parseStrUnits_escapeChar (c : Char) (r : List Char) :
    parseStrUnits (escapeChar c ++ r)
      = (parseStrUnits r).map (fun p => (c.toNat :: p.1, p.2)) := by
  by_cases h1 : c = '"'
  · subst h1
    rw [show escapeChar '"' = ['\\', '"'] from rfl]
    exact parseStrUnits_esc '"' 34 r rfl (by decide)
  by_cases h2 : c = '\\'
  · subst h2
    rw [show escapeChar '\\' = ['\\', '\\'] from rfl]
    exact parseStrUnits_esc '\\' 92 r rfl (by decide)
  by_cases h3 : c = Char.ofNat 8
  · subst h3
    rw [show escapeChar (Char.ofNat 8) = ['\\', 'b'] from rfl]
    exact parseStrUnits_esc 'b' 8 r rfl (by decide)
  by_cases h4 : c = '\t'
  · subst h4
    rw [show escapeChar '\t' = ['\\', 't'] from rfl]
    exact parseStrUnits_esc 't' 9 r rfl (by decide)
  by_cases h5 : c = '\n'
  · subst h5
    rw [show escapeChar '\n' = ['\\', 'n'] from rfl]
    exact parseStrUnits_esc 'n' 10 r rfl (by decide)
  by_cases h6 : c = Char.ofNat 12
  · subst h6
    rw [show escapeChar (Char.ofNat 12) = ['\\', 'f'] from rfl]
    exact parseStrUnits_esc 'f' 12 r rfl (by decide)
  by_cases h7 : c = '\r'
  · subst h7
    rw [show escapeChar '\r' = ['\\', 'r'] from rfl]
    exact parseStrUnits_esc 'r' 13 r rfl (by decide)
  by_cases h8 : c.toNat < 0x20
  · rw [show escapeChar c = ['\\', 'u', '0', '0', lowerHexDigit (c.toNat / 16),
      lowerHexDigit (c.toNat % 16)] from by
        simp [escapeChar, h1, h2, h3, h4, h5, h6, h7, h8]]
    exact parseStrUnits_u c r h8
  · rw [show escapeChar c = [c] from by simp [escapeChar, h1, h2, h3, h4, h5, h6, h7, h8]]
    exact parseStrUnits_lit c r h1 h2 h8

/-- The string-body parser reads an escaped character list back to the
original code units. -/
theorem parseStrUnits_escape (cs : List Char) (rest : List Char) :
    parseStrUnits (cs.flatMap escapeChar ++ '"' :: rest)
      = some (cs.map Char.toNat, rest) := by
  induction cs with
  | nil => rfl
  | cons c cs ih =>
    rw [List.flatMap_cons, List.append_assoc, parseStrUnits_escapeChar, ih]
    rfl

/-- A character is never a surrogate code unit. -/
theorem char_not_surrogate (c : Char) :
    isHighSurrogate c.toNat = false ∧ isLowSurrogate c.toNat = false := by
  have hv : c.toNat < 0xD800 ∨ (0xE000 ≤ c.toNat ∧ c.toNat < 0x110000) := c.valid
  constructor <;> simp [isHighSurrogate, isLowSurrogate] <;> omega

/-- Combining the code units of a character list recovers the characters. -/
theorem unitsToChars_map_toNat (cs : List Char) :
    ∀ fuel, cs.length ≤ fuel → unitsToChars fuel (cs.map Char.toNat) = cs := by
  induction cs with
  | nil => intro fuel _; cases fuel <;> rfl
  | cons c cs ih =>
    intro fuel hf
    match fuel, hf with
    | f + 1, hf =>
      rw [List.map_cons, unitsToChars, (char_not_surrogate c).1, if_neg (by simp),
        (char_not_surrogate c).2, if_neg (by simp), Char.ofNat_toNat,
        ih f (by simpa using hf)]

/-- Parsing a stringified string body recovers the original string's
characters. -/
theorem parseStrChars_escape (s : String) (rest : List Char) :
    parseStrChars (s.data.flatMap escapeChar ++ '"' :: rest) = some (s.data, rest) := by
  rw [parseStrChars, parseStrUnits_escape]
  simp only [Option.map_some', List.length_map]
  rw [unitsToChars_map_toNat s.data s.data.length le_rfl]


/-- `skipWs` is the identity on input starting with a non-whitespace
character. -/
theorem skipWs_cons_of (c : Char) (l : List Char)
    (h : ¬(c = ' ' ∨ c = '\t' ∨ c = '\n' ∨ c = '\r')) : skipWs (c :: l) = c :: l := by
  rw [skipWs, if_neg h]

/-- The value parser reads a stringified string back. -/
theorem parseValue_qchars (s : String) (n : Nat) (rest : List Char) :
    parseValue (n + 1) (qchars s ++ rest) = some (Json.str s, rest) := by
  have hq : qchars s ++ rest = '"' :: (s.data.flatMap escapeChar ++ ('"' :: rest)) := by
    simp [qchars]
  rw [hq]
  show (parseStrChars (s.data.flatMap escapeChar ++ '"' :: rest)).map
      (fun p => (Json.str (String.mk p.1), p.2)) = some (Json.str s, rest)
  rw [parseStrChars_escape]
  rfl

/-- One `"key": value` member followed by `}`. -/
theorem parseMembersF_last (pv : List Char → Option (Json × List Char)) (k : Nat)
    (key : String) (v : Json) (vchars rest : List Char)
    (hkey : ∀ r2 : List Char, parseStrChars (key.data ++ '"' :: r2) = some (key.data, r2))
    (hv : ∀ r2 : List Char, pv (vchars ++ r2) = some (v, r2)) :
    parseMembersF pv (k + 1) ('"' :: (key.data ++ ('"' :: (':' :: (vchars ++ ('}' :: rest))))))
      = some ([(key, v)], rest) := by
  show (parseStrChars (key.data ++ ('"' :: (':' :: (vchars ++ ('}' :: rest)))))).bind _
      = some ([(key, v)], rest)
  rw [hkey]
  simp only [Option.some_bind]
  show (pv (vchars ++ ('}' :: rest))).bind _ = some ([(key, v)], rest)
  rw [hv]
  simp only [Option.some_bind]
  rfl

/-- One `"key": value` member followed by a comma and further members. -/
theorem parseMembersF_more (pv : List Char → Option (Json × List Char)) (k : Nat)
    (key : String) (v : Json) (vchars more : List Char)
    (hkey : ∀ r2 : List Char, parseStrChars (key.data ++ '"' :: r2) = some (key.data, r2))
    (hv : ∀ r2 : List Char, pv (vchars ++ r2) = some (v, r2)) :
    parseMembersF pv (k + 1) ('"' :: (key.data ++ ('"' :: (':' :: (vchars ++ (',' :: '"' :: more))))))
      = (parseMembersF pv k ('"' :: more)).map (fun mp => ((key, v) :: mp.1, mp.2)) := by
  show (parseStrChars (key.data ++ ('"' :: (':' :: (vchars ++ (',' :: '"' :: more)))))).bind _
      = _
  rw [hkey]
  simp only [Option.some_bind]
  show (pv (vchars ++ (',' :: '"' :: more))).bind _ = _
  rw [hv]
  simp only [Option.some_bind]
  show (parseMembersF pv k (skipWs ('"' :: more))).map _ = _
  rw [skipWs_cons_of '"' more (by decide)]

/-- The value parser reads one stringified link object back. -/
theorem parseValue_linkChars (l : FolioLink) (n : Nat) (rest : List Char) :
    parseValue (n + 4) (linkChars l ++ rest) = some (linkJson l, rest) := by
  have hl : linkChars l ++ rest
      = '{' :: ('"' :: ("title".data ++ ('"' :: (':' :: (qchars l.title ++
          (',' :: '"' :: ("url".data ++ ('"' :: (':' :: (qchars l.url ++ ('}' :: rest))))))))))) := by
    simp [linkChars]
  rw [hl]
  show (parseMembersF (parseValue (n + 3)) (n + 3)
      ('"' :: ("title".data ++ ('"' :: (':' :: (qchars l.title ++
        (',' :: '"' :: ("url".data ++ ('"' :: (':' :: (qchars l.url ++ ('}' :: rest))))))))))) ).map
      (fun p => (Json.obj p.1, p.2)) = some (linkJson l, rest)
  have hkeyt : ∀ r2 : List Char, parseStrChars ("title".data ++ '"' :: r2)
      = some ("title".data, r2) := fun r2 => parseStrChars_escape "title" r2
  have hkeyu : ∀ r2 : List Char, parseStrChars ("url".data ++ '"' :: r2)
      = some ("url".data, r2) := fun r2 => parseStrChars_escape "url" r2
  have hvt : ∀ r2 : List Char, parseValue (n + 3) (qchars l.title ++ r2)
      = some (Json.str l.title, r2) := fun r2 => parseValue_qchars l.title (n + 2) r2
  have hvu : ∀ r2 : List Char, parseValue (n + 3) (qchars l.url ++ r2)
      = some (Json.str l.url, r2) := fun r2 => parseValue_qchars l.url (n + 2) r2
  rw [show n + 3 = (n + 2) + 1 from rfl,
    parseMembersF_more (parseValue (n + 2 + 1)) (n + 2) "title" (Json.str l.title)
      (qchars l.title) _ hkeyt hvt,
    parseMembersF_last (parseValue (n + 2 + 1)) (n + 1) "url" (Json.str l.url)
      (qchars l.url) rest hkeyu hvu]
  rfl


/-- The element loop reads a non-empty stringified link array body back. -/
theorem parseElemsF_links (pv : List Char → Option (Json × List Char)) :
    ∀ (ls : List FolioLink) (l : FolioLink) (k : Nat) (rest : List Char),
      (∀ x ∈ l :: ls, ∀ r2 : List Char, pv (linkChars x ++ r2) = some (linkJson x, r2)) →
      parseElemsF pv (k + ls.length + 1) (linksChars (l :: ls) ++ (']' :: rest))
        = some ((l :: ls).map linkJson, rest) := by
  intro ls
  induction ls with
  | nil =>
    intro l k rest hv
    have h : linksChars [l] ++ (']' :: rest) = linkChars l ++ (']' :: rest) := by
      simp [linksChars]
    rw [h]
    show (pv (linkChars l ++ (']' :: rest))).bind _ = _
    rw [hv l (by simp)]
    simp only [Option.some_bind]
    rfl
  | cons l2 ls2 ih =>
    intro l k rest hv
    have h : linksChars (l :: l2 :: ls2) ++ (']' :: rest)
        = linkChars l ++ (',' :: (linksChars (l2 :: ls2) ++ (']' :: rest))) := by
      simp [linksChars]
    rw [h]
    show (pv (linkChars l ++ (',' :: (linksChars (l2 :: ls2) ++ (']' :: rest))))).bind _ = _
    rw [hv l (by simp)]
    simp only [Option.some_bind]
    show (parseElemsF pv (k + ls2.length + 1)
        (linksChars (l2 :: ls2) ++ (']' :: rest))).map _ = _
    rw [ih l2 k rest (fun x hx r2 => hv x (by simp [hx]) r2)]
    rfl

/-- The value parser reads a stringified link array back. -/
theorem parseValue_linksArr (ls : List FolioLink) (n : Nat) (rest : List Char)
    (hn1 : ls.length ≤ n) (hn2 : 4 ≤ n) :
    parseValue (n + 1) ('[' :: (linksChars ls ++ (']' :: rest)))
      = some (Json.arr (ls.map linkJson), rest) := by
  cases ls with
  | nil => rfl
  | cons l ls2 =>
    obtain ⟨k, rfl⟩ : ∃ k, n = k + ls2.length + 1 :=
      ⟨n - ls2.length - 1, by simp at hn1; omega⟩
    have hv : ∀ x ∈ l :: ls2, ∀ r2 : List Char,
        parseValue (k + ls2.length + 1) (linkChars x ++ r2) = some (linkJson x, r2) := by
      intro x hx r2
      rw [show k + ls2.length + 1 = (k + ls2.length + 1 - 4) + 4 from by omega]
      exact parseValue_linkChars x _ r2
    show (parseElemsF (parseValue (k + ls2.length + 1)) (k + ls2.length + 1)
        (linksChars (l :: ls2) ++ (']' :: rest))).map (fun p => (Json.arr p.1, p.2)) = _
    rw [parseElemsF_links (parseValue (k + ls2.length + 1)) ls2 l k rest hv]
    rfl


/-- The value parser reads the stringified folio object back. -/
theorem parseValue_folioChars (p : FolioProfile) (M : Nat) (rest : List Char)
    (h1 : p.links.length ≤ M) :
    parseValue (M + 5 + 1) (folioChars p ++ rest) = some (folioJson p, rest) := by
  obtain ⟨pi, na, ti, ls⟩ := p
  replace h1 : ls.length ≤ M := h1
  have hvStr : ∀ (s : String) (r2 : List Char),
      parseValue (M + 5) (qchars s ++ r2) = some (Json.str s, r2) :=
    fun s r2 => parseValue_qchars s (M + 4) r2
  have hkeypr : ∀ r2 : List Char, parseStrChars ("profileImageUrl".data ++ '"' :: r2)
      = some ("profileImageUrl".data, r2) := fun r2 => parseStrChars_escape "profileImageUrl" r2
  have hkeyna : ∀ r2 : List Char, parseStrChars ("name".data ++ '"' :: r2)
      = some ("name".data, r2) := fun r2 => parseStrChars_escape "name" r2
  have hkeyti : ∀ r2 : List Char, parseStrChars ("title".data ++ '"' :: r2)
      = some ("title".data, r2) := fun r2 => parseStrChars_escape "title" r2
  have hkeyli : ∀ r2 : List Char, parseStrChars ("links".data ++ '"' :: r2)
      = some ("links".data, r2) := fun r2 => parseStrChars_escape "links" r2
  have hlv : ∀ r2 : List Char, parseValue (M + 5) (('[' :: (linksChars ls ++ [']'])) ++ r2)
      = some (Json.arr (ls.map linkJson), r2) := by
    intro r2
    have hsh : ('[' :: (linksChars ls ++ [']'])) ++ r2 = '[' :: (linksChars ls ++ (']' :: r2)) := by
      simp
    rw [hsh]
    apply parseValue_linksArr ls (M + 4) r2
    · exact h1.trans (Nat.le_add_right M 4)
    · omega
  rcases pi with _ | s1 <;> rcases na with _ | s2 <;> rcases ti with _ | s3
  · -- present: profileImageUrl=False name=False title=False
    have hshape : folioChars ⟨none, none, none, ls⟩ ++ rest = '{' :: '"' :: ("links".data ++ ('"' :: (':' :: (('[' :: (linksChars ls ++ [']'])) ++ ('}' :: rest))))) := by
      simp [folioChars, optMemberChars, List.append_assoc]
    rw [hshape]
    show (parseMembersF (parseValue (M + 5)) (M + 5) _).map _
      = some (folioJson ⟨none, none, none, ls⟩, rest)
    rw [parseMembersF_last (parseValue (M + 5)) (M + 4) "links" (Json.arr (ls.map linkJson)) ('[' :: (linksChars ls ++ [']'])) rest hkeyli hlv]
    rfl
  · -- present: profileImageUrl=False name=False title=True
    have hshape : folioChars ⟨none, none, some s3, ls⟩ ++ rest = '{' :: '"' :: ("title".data ++ ('"' :: (':' :: (qchars s3 ++ (',' :: '"' :: ("links".data ++ ('"' :: (':' :: (('[' :: (linksChars ls ++ [']'])) ++ ('}' :: rest)))))))))) := by
      simp [folioChars, optMemberChars, List.append_assoc]
    rw [hshape]
    show (parseMembersF (parseValue (M + 5)) (M + 5) _).map _
      = some (folioJson ⟨none, none, some s3, ls⟩, rest)
    rw [parseMembersF_more (parseValue (M + 5)) (M + 4) "title" (Json.str s3) (qchars s3) _ hkeyti (hvStr s3),
      parseMembersF_last (parseValue (M + 5)) (M + 3) "links" (Json.arr (ls.map linkJson)) ('[' :: (linksChars ls ++ [']'])) rest hkeyli hlv]
    rfl
  · -- present: profileImageUrl=False name=True title=False
    have hshape : folioChars ⟨none, some s2, none, ls⟩ ++ rest = '{' :: '"' :: ("name".data ++ ('"' :: (':' :: (qchars s2 ++ (',' :: '"' :: ("links".data ++ ('"' :: (':' :: (('[' :: (linksChars ls ++ [']'])) ++ ('}' :: rest)))))))))) := by
      simp [folioChars, optMemberChars, List.append_assoc]
    rw [hshape]
    show (parseMembersF (parseValue (M + 5)) (M + 5) _).map _
      = some (folioJson ⟨none, some s2, none, ls⟩, rest)
    rw [parseMembersF_more (parseValue (M + 5)) (M + 4) "name" (Json.str s2) (qchars s2) _ hkeyna (hvStr s2),
      parseMembersF_last (parseValue (M + 5)) (M + 3) "links" (Json.arr (ls.map linkJson)) ('[' :: (linksChars ls ++ [']'])) rest hkeyli hlv]
    rfl
  · -- present: profileImageUrl=False name=True title=True
    have hshape : folioChars ⟨none, some s2, some s3, ls⟩ ++ rest = '{' :: '"' :: ("name".data ++ ('"' :: (':' :: (qchars s2 ++ (',' :: '"' :: ("title".data ++ ('"' :: (':' :: (qchars s3 ++ (',' :: '"' :: ("links".data ++ ('"' :: (':' :: (('[' :: (linksChars ls ++ [']'])) ++ ('}' :: rest))))))))))))))) := by
      simp [folioChars, optMemberChars, List.append_assoc]
    rw [hshape]
    show (parseMembersF (parseValue (M + 5)) (M + 5) _).map _
      = some (folioJson ⟨none, some s2, some s3, ls⟩, rest)
    rw [parseMembersF_more (parseValue (M + 5)) (M + 4) "name" (Json.str s2) (qchars s2) _ hkeyna (hvStr s2),
      parseMembersF_more (parseValue (M + 5)) (M + 3) "title" (Json.str s3) (qchars s3) _ hkeyti (hvStr s3),
      parseMembersF_last (parseValue (M + 5)) (M + 2) "links" (Json.arr (ls.map linkJson)) ('[' :: (linksChars ls ++ [']'])) rest hkeyli hlv]
    rfl
  · -- present: profileImageUrl=True name=False title=False
    have hshape : folioChars ⟨some s1, none, none, ls⟩ ++ rest = '{' :: '"' :: ("profileImageUrl".data ++ ('"' :: (':' :: (qchars s1 ++ (',' :: '"' :: ("links".data ++ ('"' :: (':' :: (('[' :: (linksChars ls ++ [']'])) ++ ('}' :: rest)))))))))) := by
      simp [folioChars, optMemberChars, List.append_assoc]
    rw [hshape]
    show (parseMembersF (parseValue (M + 5)) (M + 5) _).map _
      = some (folioJson ⟨some s1, none, none, ls⟩, rest)
    rw [parseMembersF_more (parseValue (M + 5)) (M + 4) "profileImageUrl" (Json.str s1) (qchars s1) _ hkeypr (hvStr s1),
      parseMembersF_last (parseValue (M + 5)) (M + 3) "links" (Json.arr (ls.map linkJson)) ('[' :: (linksChars ls ++ [']'])) rest hkeyli hlv]
    rfl
  · -- present: profileImageUrl=True name=False title=True
    have hshape : folioChars ⟨some s1, none, some s3, ls⟩ ++ rest = '{' :: '"' :: ("profileImageUrl".data ++ ('"' :: (':' :: (qchars s1 ++ (',' :: '"' :: ("title".data ++ ('"' :: (':' :: (qchars s3 ++ (',' :: '"' :: ("links".data ++ ('"' :: (':' :: (('[' :: (linksChars ls ++ [']'])) ++ ('}' :: rest))))))))))))))) := by
      simp [folioChars, optMemberChars, List.append_assoc]
    rw [hshape]
    show (parseMembersF (parseValue (M + 5)) (M + 5) _).map _
      = some (folioJson ⟨some s1, none, some s3, ls⟩, rest)
    rw [parseMembersF_more (parseValue (M + 5)) (M + 4) "profileImageUrl" (Json.str s1) (qchars s1) _ hkeypr (hvStr s1),
      parseMembersF_more (parseValue (M + 5)) (M + 3) "title" (Json.str s3) (qchars s3) _ hkeyti (hvStr s3),
      parseMembersF_last (parseValue (M + 5)) (M + 2) "links" (Json.arr (ls.map linkJson)) ('[' :: (linksChars ls ++ [']'])) rest hkeyli hlv]
    rfl
  · -- present: profileImageUrl=True name=True title=False
    have hshape : folioChars ⟨some s1, some s2, none, ls⟩ ++ rest = '{' :: '"' :: ("profileImageUrl".data ++ ('"' :: (':' :: (qchars s1 ++ (',' :: '"' :: ("name".data ++ ('"' :: (':' :: (qchars s2 ++ (',' :: '"' :: ("links".data ++ ('"' :: (':' :: (('[' :: (linksChars ls ++ [']'])) ++ ('}' :: rest))))))))))))))) := by
      simp [folioChars, optMemberChars, List.append_assoc]
    rw [hshape]
    show (parseMembersF (parseValue (M + 5)) (M + 5) _).map _
      = some (folioJson ⟨some s1, some s2, none, ls⟩, rest)
    rw [parseMembersF_more (parseValue (M + 5)) (M + 4) "profileImageUrl" (Json.str s1) (qchars s1) _ hkeypr (hvStr s1),
      parseMembersF_more (parseValue (M + 5)) (M + 3) "name" (Json.str s2) (qchars s2) _ hkeyna (hvStr s2),
      parseMembersF_last (parseValue (M + 5)) (M + 2) "links" (Json.arr (ls.map linkJson)) ('[' :: (linksChars ls ++ [']'])) rest hkeyli hlv]
    rfl
  · -- present: profileImageUrl=True name=True title=True
    have hshape : folioChars ⟨some s1, some s2, some s3, ls⟩ ++ rest = '{' :: '"' :: ("profileImageUrl".data ++ ('"' :: (':' :: (qchars s1 ++ (',' :: '"' :: ("name".data ++ ('"' :: (':' :: (qchars s2 ++ (',' :: '"' :: ("title".data ++ ('"' :: (':' :: (qchars s3 ++ (',' :: '"' :: ("links".data ++ ('"' :: (':' :: (('[' :: (linksChars ls ++ [']'])) ++ ('}' :: rest)))))))))))))))))))) := by
      simp [folioChars, optMemberChars, List.append_assoc]
    rw [hshape]
    show (parseMembersF (parseValue (M + 5)) (M + 5) _).map _
      = some (folioJson ⟨some s1, some s2, some s3, ls⟩, rest)
    rw [parseMembersF_more (parseValue (M + 5)) (M + 4) "profileImageUrl" (Json.str s1) (qchars s1) _ hkeypr (hvStr s1),
      parseMembersF_more (parseValue (M + 5)) (M + 3) "name" (Json.str s2) (qchars s2) _ hkeyna (hvStr s2),
      parseMembersF_more (parseValue (M + 5)) (M + 2) "title" (Json.str s3) (qchars s3) _ hkeyti (hvStr s3),
      parseMembersF_last (parseValue (M + 5)) (M + 1) "links" (Json.arr (ls.map linkJson)) ('[' :: (linksChars ls ++ [']'])) rest hkeyli hlv]
    rfl


/-- Each stringified link is non-empty. -/
theorem linkChars_length_pos (l : FolioLink) : 1 ≤ (linkChars l).length := by
  simp [linkChars]

/-- The stringified link array body is at least as long as the link list. -/
theorem linksChars_length_ge (ls : List FolioLink) : ls.length ≤ (linksChars ls).length := by
  induction ls with
  | nil => simp [linksChars]
  | cons l ls ih =>
    rw [linksChars]
    have h1 := linkChars_length_pos l
    rcases ls with _ | ⟨l2, ls2⟩
    · simpa using h1
    · rw [if_neg (by simp)]
      simp only [List.length_append, List.length_cons]
      simp only [List.length_cons] at ih
      omega

/-- The stringified folio object is long enough to fuel its own parse. -/
theorem folioChars_length_ge (p : FolioProfile) :
    p.links.length + 12 ≤ (folioChars p).length := by
  have hl := linksChars_length_ge p.links
  simp only [folioChars, List.length_append, List.length_cons, List.length_nil]
  have h9 : ("\"links\":[".data).length = 9 := rfl
  omega

/-- `JSON.parse` recovers the folio `Json` value from the stringified
folio object. -/
theorem jsonParse_folioChars (p : FolioProfile) :
    jsonParse (String.mk (folioChars p)) = some (folioJson p) := by
  have hlen := folioChars_length_ge p
  obtain ⟨M, hM1, hM2⟩ : ∃ M, (folioChars p).length = M + 5 ∧ p.links.length ≤ M :=
    ⟨(folioChars p).length - 5, by omega⟩
  have h := parseValue_folioChars p M [] hM2
  rw [List.append_nil] at h
  show (match parseValue ((folioChars p).length + 1) (folioChars p) with
        | some (v, rest) => if skipWs rest = [] then some v else none
        | none => none) = some (folioJson p)
  rw [hM1, h]
  rfl


/-- The encoded token of any profile is non-empty. -/
theorem folioEncode_ne_empty (p : FolioProfile) : folioEncode p ≠ "" := by
  rw [folioEncode, utf8ToBase64]
  intro h
  have hdata : b64Encode (utf8Encode (String.mk
      (folioChars { p with links := p.links.filter linkValid }))) = [] :=
    congrArg String.data h
  have hnonempty : utf8Encode (String.mk
      (folioChars { p with links := p.links.filter linkValid })) ≠ [] := by
    rw [utf8Encode]
    show ('{' :: _).flatMap utf8EncodeChar ≠ []
    rw [List.flatMap_cons]
    intro hh
    have := congrArg List.length hh
    rw [List.length_append] at this
    have h1 := utf8EncodeChar_length_pos '{'
    simp only [List.length_nil] at this
    omega
  exact b64Encode_ne_nil _ hnonempty hdata

/-- The folio `Json` object always has at least one key. -/
theorem keysLen_folioJson_pos (p : FolioProfile) : keysLen (folioJson p) ≠ 0 := by
  rw [folioJson, keysLen]
  simp

/-- Decoding the encoded token recovers the folio `Json` value (with the
links filtered at encode time). -/
theorem folioDecodeData_folioEncode (p : FolioProfile) :
    folioDecodeData (folioEncode p)
      = some (folioJson { p with links := p.links.filter linkValid }) := by
  rw [folioDecodeData, if_neg (folioEncode_ne_empty p)]
  rw [show base64ToUtf8 (folioEncode p) = String.mk
      (folioChars { p with links := p.links.filter linkValid }) from
    base64ToUtf8_utf8ToBase64 _]
  rw [jsonParse_folioChars]
  show (if keysLen (folioJson { p with links := p.links.filter linkValid }) = 0 ∧
        (folioEncode p).length > 0 then none
      else some (folioJson { p with links := p.links.filter linkValid }))
    = some (folioJson { p with links := p.links.filter linkValid })
  rw [if_neg]
  intro hand
  exact keysLen_folioJson_pos _ hand.1

/-- Property lookups on the folio `Json` value. -/
theorem jGet_folioJson (p : FolioProfile) :
    jGet (folioJson p) "profileImageUrl" = p.profileImageUrl.map Json.str ∧
    jGet (folioJson p) "name" = p.name.map Json.str ∧
    jGet (folioJson p) "title" = p.title.map Json.str ∧
    jGet (folioJson p) "links" = some (Json.arr (p.links.map linkJson)) := by
  obtain ⟨pi, na, ti, ls⟩ := p
  rcases pi with _ | s1 <;> rcases na with _ | s2 <;> rcases ti with _ | s3 <;>
    simp [folioJson, optMemberJson, jGet, List.find?]

/-- Reading one serialized link back. -/
theorem linkOfJson_linkJson (l : FolioLink) : linkOfJson (linkJson l) = some l := rfl

/-- Reading the serialized links array back. -/
theorem folioLinksOf_folioJson (p : FolioProfile) : folioLinksOf (folioJson p) = p.links := by
  rw [folioLinksOf, (jGet_folioJson p).2.2.2]
  show (p.links.map linkJson).filterMap linkOfJson = p.links
  induction p.links with
  | nil => rfl
  | cons l ls ih =>
    rw [List.map_cons, List.filterMap_cons, linkOfJson_linkJson, ih]

/-- The viewer's reconstruction of an encoded profile: every field
round-trips, with the links filtered to valid entries. -/
theorem folioDecodeProfile_folioEncode (p : FolioProfile) :
    folioDecodeProfile (folioEncode p)
      = some { profileImageUrl := p.profileImageUrl, name := p.name, title := p.title,
               links := p.links.filter linkValid } := by
  rw [folioDecodeProfile, folioDecodeData_folioEncode]
  simp only [Option.map_some']
  have hq := jGet_folioJson { p with links := p.links.filter linkValid }
  have hfield : ∀ (k : String) (o : Option String),
      jGet (folioJson { p with links := p.links.filter linkValid }) k = o.map Json.str →
      folioFieldStr (folioJson { p with links := p.links.filter linkValid }) k = o := by
    intro k o h
    rw [folioFieldStr, h]
    cases o <;> rfl
  congr 1
  have h1 := hfield "profileImageUrl" p.profileImageUrl hq.1
  have h2 := hfield "name" p.name hq.2.1
  have h3 := hfield "title" p.title hq.2.2.1
  have h4 := folioLinksOf_folioJson { p with links := p.links.filter linkValid }
  rw [h1, h2, h3, h4]


/-- The key list of the folio `Json` object: present optional fields in
insertion order, then `links`. -/
theorem jKeys_folioJson (p : FolioProfile) :
    jKeys (folioJson p)
      = (if p.profileImageUrl.isSome then ["profileImageUrl"] else [])
        ++ (if p.name.isSome then ["name"] else [])
        ++ (if p.title.isSome then ["title"] else []) ++ ["links"] := by
  obtain ⟨pi, na, ti, ls⟩ := p
  rcases pi with _ | s1 <;> rcases na with _ | s2 <;> rcases ti with _ | s3 <;>
    simp [folioJson, optMemberJson, jKeys]

/-- C1: the folio codec round-trips every profile, including profiles with
non-ASCII text: the decoded profile's `name` (and the other optional
fields) equals the original, and its links are exactly the original links
filtered to entries with a non-empty title and a non-empty url. -/
theorem claim_C1 (p : FolioProfile) :
    folioDecodeProfile (folioEncode p)
      = some { profileImageUrl := p.profileImageUrl, name := p.name, title := p.title,
               links := p.links.filter linkValid } :=
  folioDecodeProfile_folioEncode p

/-- C3: the serializer emits a JSON object that omits each absent optional
field (the key is present iff the field is defined, and a present key maps
to the field's string — never `null` or a placeholder), filters the links
to valid entries, parses back to exactly that object, and an undefined
optional field decodes back to absence, never to an empty string. -/
theorem claim_C3 (p : FolioProfile) :
    jKeys (folioJson { p with links := p.links.filter linkValid })
        = (if p.profileImageUrl.isSome then ["profileImageUrl"] else [])
          ++ (if p.name.isSome then ["name"] else [])
          ++ (if p.title.isSome then ["title"] else []) ++ ["links"] ∧
    jGet (folioJson { p with links := p.links.filter linkValid }) "profileImageUrl"
        = p.profileImageUrl.map Json.str ∧
    jGet (folioJson { p with links := p.links.filter linkValid }) "name"
        = p.name.map Json.str ∧
    jGet (folioJson { p with links := p.links.filter linkValid }) "title"
        = p.title.map Json.str ∧
    jGet (folioJson { p with links := p.links.filter linkValid }) "links"
        = some (Json.arr ((p.links.filter linkValid).map linkJson)) ∧
    jsonParse (String.mk (folioChars { p with links := p.links.filter linkValid }))
        = some (folioJson { p with links := p.links.filter linkValid }) ∧
    (folioDecodeProfile (folioEncode p)).map FolioProfile.profileImageUrl
        = some p.profileImageUrl ∧
    (folioDecodeProfile (folioEncode p)).map FolioProfile.name = some p.name ∧
    (folioDecodeProfile (folioEncode p)).map FolioProfile.title = some p.title := by
  have hq := jGet_folioJson { p with links := p.links.filter linkValid }
  have hk := jKeys_folioJson { p with links := p.links.filter linkValid }
  have hd := folioDecodeProfile_folioEncode p
  refine ⟨hk, hq.1, hq.2.1, hq.2.2.1, hq.2.2.2, jsonParse_folioChars _, ?_, ?_, ?_⟩ <;>
    rw [hd] <;> rfl

end QrMaster
